import Mathlib

/-!
Verification of the DEA AWS bulk-download tool (`app.py`).

Python strings are modelled as `List Char` with Python's lexicographic
(code-point) comparison; `s[:k]` is `List.take k`; f-string concatenation
is list append.  The remote object store (`aws s3 ls`) is modelled as a
function from a listing prefix to an `S3Result` (return code plus raw
stdout text), and `aws s3 cp` as a function from the command argv to its
exit code.  All definitions are executable so that concrete runs can be
evaluated by `decide`.
-/

/-- Python strings, modelled as lists of characters. -/
abbrev Str := List Char

/-- Coerce a Lean string literal to the `Str` model. -/
def chars (s : String) : Str := s.data

/-- The characters stripped by Python's `str.strip()` / split by `str.split()`
(ASCII whitespace; the listing output of `aws s3 ls` is ASCII). -/
def isPySpace (c : Char) : Bool :=
  c = ' ' || c = '\t' || c = '\n' || c = '\r' || c = '\x0b' || c = '\x0c'

/-- Line-break characters recognised by Python's `str.splitlines()`. -/
def isLineBreak (c : Char) : Bool :=
  c = '\n' || c = '\r' || c = '\x0b' || c = '\x0c' || c = '\x1c' ||
  c = '\x1d' || c = '\x1e' || c = '\x85' || c = '\u2028' || c = '\u2029'

/-- Helper for `splitlines`: `acc` holds the current line reversed. -/
def splitlinesAux (acc : Str) : Str → List Str
  | [] => if acc.isEmpty then [] else [acc.reverse]
  | '\r' :: '\n' :: rest => acc.reverse :: splitlinesAux [] rest
  | c :: rest =>
      if isLineBreak c then acc.reverse :: splitlinesAux [] rest
      else splitlinesAux (c :: acc) rest

/-- Python's `str.splitlines()` (no trailing empty line; `\r\n` is one break). -/
def splitlines (s : Str) : List Str := splitlinesAux [] s

/-- Python's string comparison `a <= b`: lexicographic on code points. -/
def lexLe : Str → Str → Bool
  | [], _ => true
  | _ :: _, [] => false
  | a :: as, b :: bs => if a < b then true else if a = b then lexLe as bs else false

/-- Python's string comparison `a < b`: lexicographic on code points. -/
def lexLt : Str → Str → Bool
  | [], [] => false
  | [], _ :: _ => true
  | _ :: _, [] => false
  | a :: as, b :: bs => if a < b then true else if a = b then lexLt as bs else false

/-- Python's `str.zfill(w)`: left-pad with `'0'` to width `w`, keeping a
leading sign character in front of the padding. -/
def zfill (w : Nat) (s : Str) : Str :=
  if w ≤ s.length then s
  else
    match s with
    | [] => List.replicate w '0'
    | c :: rest =>
        if c = '+' || c = '-' then c :: (List.replicate (w - s.length) '0' ++ rest)
        else List.replicate (w - s.length) '0' ++ s

/-- The last whitespace-separated token of a line:
`line.strip().split()[-1]`.  (Defined via a reverse traversal; it agrees
with Python whenever the line contains a non-space character, which the
`'/' in line` guard in `app.py` ensures.) -/
def lastToken (line : Str) : Str :=
  ((line.reverse.dropWhile isPySpace).takeWhile (fun c => !isPySpace c)).reverse

/-- Python's `token.strip('/')`: remove `'/'` characters from both ends. -/
def stripSlashes (s : Str) : Str :=
  ((s.dropWhile (fun c => c = '/')).reverse.dropWhile (fun c => c = '/')).reverse

/-- `line.strip().split()[-1].strip('/')` from `list_available_dates`. -/
def extractKey (line : Str) : Str := stripSlashes (lastToken line)

/-- The list-comprehension
`[line.strip().split()[-1].strip('/') for line in lines if '/' in line]`
used at every level of the discovery scan. -/
def dirKeys (lines : List Str) : List Str :=
  (lines.filter (fun l => l.contains '/')).map extractKey

/-- Result of one `subprocess.run(["aws","s3","ls",…])` call: the process
return code and its raw standard output text. -/
structure S3Result where
  returncode : Int
  stdout : Str
deriving DecidableEq

/-- The nested `list_s3` helper of `list_available_dates`:
`result.stdout.splitlines() if result.returncode == 0 else []`.
`run` is the remote store: it maps a listing prefix to the outcome of the
`aws s3 ls` call on it. -/
def list_s3 (run : Str → S3Result) (pfx : Str) : List Str :=
  if (run pfx).returncode = 0 then splitlines (run pfx).stdout else []

/-- `f"{base_url}/{path.zfill(3)}/{row.zfill(3)}/"` — the tile's root
listing prefix. -/
def tileRoot (base_url path row : Str) : Str :=
  base_url ++ chars "/" ++ zfill 3 path ++ chars "/" ++ zfill 3 row ++ chars "/"

/-- `f"{year}-{month}-{day}"` — a composed date string. -/
def composeDate (year month day : Str) : Str :=
  year ++ chars "-" ++ month ++ chars "-" ++ day

/-- The year/month/day triple-loop body of `list_available_dates`, before the
final `sorted`.  `ls` is the (partially applied) `list_s3` primitive.  The
`if … else []` branches are Python's `continue` statements; the innermost
`filterMap` is the `if start_date <= date_str <= end_date: dates.append(…)`. -/
def datesUnder (ls : Str → List Str) (pfx start_date end_date : Str) : List Str :=
  (dirKeys (ls pfx)).flatMap (fun year =>
    if lexLe (start_date.take 4) year && lexLe year (end_date.take 4) then
      (dirKeys (ls (pfx ++ year ++ chars "/"))).flatMap (fun month =>
        if lexLe (start_date.take 7) (year ++ chars "-" ++ month) &&
           lexLe (year ++ chars "-" ++ month) (end_date.take 7) then
          (dirKeys (ls (pfx ++ year ++ chars "/" ++ month ++ chars "/"))).filterMap
            (fun day =>
              if lexLe start_date (composeDate year month day) &&
                 lexLe (composeDate year month day) end_date then
                some (composeDate year month day)
              else none)
        else [])
    else [])

/-- Ordered insertion by `lexLe` (helper for `pySorted`). -/
def insertLe (d : Str) : List Str → List Str
  | [] => [d]
  | x :: xs => if lexLe d x then d :: x :: xs else x :: insertLe d xs

/-- Python's `sorted` on a list of strings.  `sorted` is a stable
comparison sort; on strings, keys that compare equal are identical, so
its output is fully determined by the input multiset and the comparator
and any correct sort is extensionally faithful.  A structurally recursive
insertion sort is used so the definition reduces in the kernel. -/
def pySorted : List Str → List Str
  | [] => []
  | x :: xs => insertLe x (pySorted xs)

/-- `list_available_dates(path, row, base_url, start_date, end_date)` from
`app.py`: the three-level prefix scan followed by `sorted(dates)`. -/
def list_available_dates (run : Str → S3Result) (path row base_url start_date end_date : Str) :
    List Str :=
  pySorted (datesUnder (list_s3 run) (tileRoot base_url path row) start_date end_date)

/-- Specification-side view of the remote tree: every date composable from a
year/month/day chain of listed sub-directory keys under `pfx` (no range
filtering, in tree order). -/
def presentDates (ls : Str → List Str) (pfx : Str) : List Str :=
  (dirKeys (ls pfx)).flatMap (fun year =>
    (dirKeys (ls (pfx ++ year ++ chars "/"))).flatMap (fun month =>
      (dirKeys (ls (pfx ++ year ++ chars "/" ++ month ++ chars "/"))).map
        (fun day => composeDate year month day)))

/-- The inclusive range test `start_date <= d <= end_date`. -/
def inRange (start_date end_date d : Str) : Bool :=
  lexLe start_date d && lexLe d end_date

/-- Point-update of a remote store environment (used to compare a failing
listing call with an empty successful one). -/
def overrideEnv (run : Str → S3Result) (p : Str) (v : S3Result) : Str → S3Result :=
  fun q => if q = p then v else run q

/-- One step of `posixpath.join`: `b` if `b` starts with the separator,
else append `b` directly when the accumulator is empty or ends with the
separator, else insert a separator. -/
def join2 (a b : Str) : Str :=
  if b.head? = some '/' then b
  else if a = [] ∨ a.getLast? = some '/' then a ++ b
  else a ++ chars "/" ++ b

/-- Python's `os.path.join(a, *comps)` on POSIX. -/
def osJoin (a : Str) (comps : List Str) : Str := comps.foldl join2 a

/-- Python's `s.split(c)` for a single-character separator `c`. -/
def splitOnChar (c : Char) : Str → List Str
  | [] => [[]]
  | x :: xs =>
      match splitOnChar c xs with
      | [] => [[x]]
      | h :: t => if x = c then [] :: h :: t else (x :: h) :: t

/-- A download task as built by `download_dea_data`: the `aws s3 cp` argv
and the remote day prefix (`cmd, s3_path`). -/
abbrev S3Task := List Str × Str

/-- `build_s3_cmd(path, row, date, base_url, output_dir)` from `app.py`.
`y, m, d = date.split("-")` raises `ValueError` unless the split has
exactly three parts; that failure is modelled as `none`. -/
def build_s3_cmd (path row date base_url output_dir : Str) : Option S3Task :=
  match splitOnChar '-' date with
  | [y, m, d] =>
      let s3_path := base_url ++ chars "/" ++ zfill 3 path ++ chars "/" ++ zfill 3 row ++
        chars "/" ++ y ++ chars "/" ++ m ++ chars "/" ++ d ++ chars "/"
      let local_path := osJoin output_dir [path, row, y, m, d]
      some ([chars "aws", chars "s3", chars "cp", s3_path, local_path,
             chars "--recursive", chars "--no-sign-request"], s3_path)
  | _ => none

/-- Numeric value of a digit character. -/
def digitVal (c : Char) : Nat := c.toNat - '0'.toNat

/-- The day field of CPython's `_strptime` for `%d`: the regex alternation
`3[01]|[12]\d|0[1-9]|[1-9]`, tried in order, anchored at the end of the
input (the leftover-input check of `_strptime` makes the two equivalent
for this fixed format). -/
def strpDay (s : Str) : Option Nat :=
  (match s with
   | ['3', c] => if c = '0' || c = '1' then some (30 + digitVal c) else none
   | _ => none) <|>
  (match s with
   | [c1, c2] => if (c1 = '1' || c1 = '2') && c2.isDigit then
                   some (digitVal c1 * 10 + digitVal c2)
                 else none
   | _ => none) <|>
  (match s with
   | ['0', c] => if '1' ≤ c && c ≤ '9' then some (digitVal c) else none
   | _ => none) <|>
  (match s with
   | [c] => if '1' ≤ c && c ≤ '9' then some (digitVal c) else none
   | _ => none)

/-- The month field of `_strptime` for `%m` (regex `1[0-2]|0[1-9]|[1-9]`),
followed by the literal `-` and the day field; alternatives carry their
continuation, mirroring regex backtracking. -/
def strpMonthDay (s : Str) : Option (Nat × Nat) :=
  (match s with
   | '1' :: c :: '-' :: dr =>
       if c = '0' || c = '1' || c = '2' then
         (strpDay dr).map (fun d => (10 + digitVal c, d))
       else none
   | _ => none) <|>
  (match s with
   | '0' :: c :: '-' :: dr =>
       if '1' ≤ c && c ≤ '9' then (strpDay dr).map (fun d => (digitVal c, d))
       else none
   | _ => none) <|>
  (match s with
   | c :: '-' :: dr =>
       if '1' ≤ c && c ≤ '9' then (strpDay dr).map (fun d => (digitVal c, d))
       else none
   | _ => none)

/-- Gregorian leap-year rule used by `datetime`. -/
def isLeap (y : Nat) : Bool := y % 4 = 0 && (y % 100 ≠ 0 || y % 400 = 0)

/-- Number of days in a month, as validated by the `datetime` constructor. -/
def daysInMonth (y m : Nat) : Nat :=
  if m = 2 then (if isLeap y then 29 else 28)
  else if m = 4 || m = 6 || m = 9 || m = 11 then 30
  else 31

/-- Validation performed by `datetime(year, month, day)` beyond the regex:
`MINYEAR <= year` and the day fits the month. -/
def validDate (y m d : Nat) : Bool := 1 ≤ y && d ≤ daysInMonth y m

/-- `datetime.strptime(s, "%Y-%m-%d")`: `%Y` is exactly four digits, then a
literal `-`, then `%m`/`-`/`%d` as above; a parse or calendar-validation
failure (Python's `ValueError`) is `none`. -/
def strptimeYmd (s : Str) : Option (Nat × Nat × Nat) :=
  match s with
  | c1 :: c2 :: c3 :: c4 :: '-' :: rest =>
      if c1.isDigit && c2.isDigit && c3.isDigit && c4.isDigit then
        let y := ((digitVal c1 * 10 + digitVal c2) * 10 + digitVal c3) * 10 + digitVal c4
        match strpMonthDay rest with
        | some (m, d) => if validDate y m d then some (y, m, d) else none
        | none => none
      else none
  | _ => none

/-- Console notices and download actions of a run, in emission order.  The
`found` notice's short-date text (`strftime("%#d %b")`, platform-dependent)
is modelled by the count of dates it reports. -/
inductive Event where
  | scan (path row : Str)
  | noData (path row : Str)
  | found (path row : Str) (n : Nat)
  | startingDownloads (n : Nat)
  | progress (i total : Nat)
  | downloading (s3_path : Str)
  | done (s3_path : Str)
  | failed (s3_path : Str) (code : Int)
deriving DecidableEq

/-- An uncaught `ValueError` escaping `download_dea_data`: either from
`datetime.strptime` on a discovered date, or from the 3-way unpacking of
`date.split("-")` in `build_s3_cmd`. -/
inductive PyErr where
  | strptimeErr (d : Str)
  | unpackErr (d : Str)
deriving DecidableEq

/-- `run_download(cmd, s3_path)` from `app.py`: announce the download, run
the copy (`copy cmd` is the exit code of `subprocess.run(cmd, check=True)`),
report success, or catch the `CalledProcessError` and report the failure
with the prefix and exit code. -/
def run_download (copy : List Str → Int) (cmd : List Str) (s3_path : Str) : List Event :=
  Event.downloading s3_path ::
    (if copy cmd = 0 then [Event.done s3_path] else [Event.failed s3_path (copy cmd)])

/-- The execution block of `download_dea_data` (lines 87–95).  Sequential
mode runs the tasks in list order with a `[i/total]` notice each.
Concurrent mode submits every task once to the worker pool and collects
completions in pool order: it is modelled by an oracle `sched` giving the
completion order (theorems assume it permutes the task list); the pool
size `max_workers` only bounds simultaneity and is invisible at this
level. -/
def executeTasks (copy : List Str → Int) (multithread : Bool)
    (sched : List S3Task → List S3Task) (tasks : List S3Task) : List Event :=
  if multithread then
    (sched tasks).flatMap (fun t => run_download copy t.1 t.2)
  else
    (tasks.enumFrom 1).flatMap
      (fun it => Event.progress it.1 tasks.length :: run_download copy it.2.1 it.2.2)

/-- The `for date in dates:` loop of `download_dea_data`: one
`build_s3_cmd` per discovered date, aborting with the offending date when
the 3-way unpacking inside `build_s3_cmd` would raise. -/
def buildTileTasks (path row base_url output_dir : Str) : List Str → Except Str (List S3Task)
  | [] => Except.ok []
  | d :: rest =>
      match build_s3_cmd path row d base_url output_dir with
      | none => Except.error d
      | some t =>
          match buildTileTasks path row base_url output_dir rest with
          | Except.error d2 => Except.error d2
          | Except.ok ts => Except.ok (t :: ts)

/-- The task-construction loop of `download_dea_data` (lines 71–83), over
the flattened `(path, row)` product, returning the emitted notices, the
accumulated task list and the first uncaught `ValueError` (if any):
scan notice; discovery; `noData` notice and `continue` on an empty result;
otherwise the `strptime` comprehension (raising at its first invalid
date), the `found` notice, and one `build_s3_cmd` per date. -/
def processTiles (run : Str → S3Result) (start_date end_date base_url output_dir : Str) :
    List (Str × Str) → List Event × List S3Task × Option PyErr
  | [] => ([], [], none)
  | (path, row) :: rest =>
      let dates := list_available_dates run path row base_url start_date end_date
      if dates.isEmpty then
        let r := processTiles run start_date end_date base_url output_dir rest
        (Event.scan path row :: Event.noData path row :: r.1, r.2.1, r.2.2)
      else
        match dates.find? (fun d => (strptimeYmd d).isNone) with
        | some d => ([Event.scan path row], [], some (PyErr.strptimeErr d))
        | none =>
            match buildTileTasks path row base_url output_dir dates with
            | Except.error d =>
                ([Event.scan path row, Event.found path row dates.length], [],
                 some (PyErr.unpackErr d))
            | Except.ok ts =>
                let r := processTiles run start_date end_date base_url output_dir rest
                (Event.scan path row :: Event.found path row dates.length :: r.1,
                 ts ++ r.2.1, r.2.2)

/-- The result of a whole `download_dea_data` call: its console/action
trace and the uncaught `ValueError`, if one escaped. -/
structure RunResult where
  events : List Event
  err : Option PyErr
deriving DecidableEq

/-- `download_dea_data` from `app.py`: build the full task list over the
`paths × rows` product, then (when no exception escaped construction)
print the start notice and execute every task in the requested mode. -/
def download_dea_data (run : Str → S3Result) (copy : List Str → Int)
    (paths rows : List Str) (start_date end_date base_url output_dir : Str)
    (multithread : Bool) (sched : List S3Task → List S3Task) : RunResult :=
  let tiles := paths.flatMap (fun p => rows.map (fun r => (p, r)))
  match processTiles run start_date end_date base_url output_dir tiles with
  | (ev, _, some er) => ⟨ev, some er⟩
  | (ev, ts, none) =>
      ⟨ev ++ Event.startingDownloads ts.length ::
          executeTasks copy multithread sched ts, none⟩

@[simp] theorem chars_dash : chars "-" = ['-'] := rfl

@[simp] theorem chars_slash : chars "/" = ['/'] := rfl

theorem lexLe_refl (a : Str) : lexLe a a = true := by
  induction a with
  | nil => rfl
  | cons x xs ih => simp [lexLe, ih]

theorem lexLe_trans {a b c : Str} (h1 : lexLe a b = true) (h2 : lexLe b c = true) :
    lexLe a c = true := by
  induction a generalizing b c with
  | nil => rfl
  | cons x xs ih =>
    cases b with
    | nil => simp [lexLe] at h1
    | cons y ys =>
      cases c with
      | nil => simp [lexLe] at h2
      | cons z zs =>
        simp only [lexLe] at h1 h2 ⊢
        rcases lt_trichotomy x y with hxy | hxy | hxy
        · rcases lt_trichotomy y z with hyz | hyz | hyz
          · simp [lt_trans hxy hyz]
          · subst hyz; simp [hxy]
          · simp [hyz, not_lt_of_lt hyz, ne_of_gt hyz] at h2
        · subst hxy
          rcases lt_trichotomy x z with hyz | hyz | hyz
          · simp [hyz]
          · subst hyz
            simp [lt_irrefl] at h1 h2 ⊢
            exact ih h1 h2
          · simp [not_lt_of_lt hyz, ne_of_gt hyz] at h2
        · simp [not_lt_of_lt hxy, ne_of_gt hxy] at h1

theorem lexLe_total (a b : Str) : lexLe a b = true ∨ lexLe b a = true := by
  induction a generalizing b with
  | nil => left; rfl
  | cons x xs ih =>
    cases b with
    | nil => right; rfl
    | cons y ys =>
      simp only [lexLe]
      rcases lt_trichotomy x y with h | h | h
      · left; simp [h]
      · subst h; simp [lt_irrefl]; exact ih ys
      · right; simp [h]

theorem lexLe_antisymm {a b : Str} (h1 : lexLe a b = true) (h2 : lexLe b a = true) :
    a = b := by
  induction a generalizing b with
  | nil => cases b with
    | nil => rfl
    | cons y ys => simp [lexLe] at h2
  | cons x xs ih =>
    cases b with
    | nil => simp [lexLe] at h1
    | cons y ys =>
      simp only [lexLe] at h1 h2
      rcases lt_trichotomy x y with h | h | h
      · simp [not_lt_of_lt h, ne_of_gt h] at h2
      · subst h
        simp [lt_irrefl] at h1 h2
        rw [ih h1 h2]
      · simp [not_lt_of_lt h, ne_of_gt h] at h1

theorem lexLt_of_le_of_ne {a b : Str} (h1 : lexLe a b = true) (h2 : a ≠ b) :
    lexLt a b = true := by
  induction a generalizing b with
  | nil =>
    cases b with
    | nil => exact absurd rfl h2
    | cons y ys => rfl
  | cons x xs ih =>
    cases b with
    | nil => simp [lexLe] at h1
    | cons y ys =>
      simp only [lexLe] at h1
      simp only [lexLt]
      rcases lt_trichotomy x y with h | h | h
      · simp [h]
      · subst h
        simp [lt_irrefl] at h1 ⊢
        exact ih h1 (by intro hc; exact h2 (by rw [hc]))
      · simp [not_lt_of_lt h, ne_of_gt h] at h1

theorem lexLe_take {a b : Str} (k : Nat) (h : lexLe a b = true) :
    lexLe (a.take k) (b.take k) = true := by
  induction k generalizing a b with
  | zero => simp [lexLe]
  | succ n ih =>
    cases a with
    | nil => rfl
    | cons x xs =>
      cases b with
      | nil => simp [lexLe] at h
      | cons y ys =>
        simp only [lexLe, List.take] at h ⊢
        rcases lt_trichotomy x y with hxy | hxy | hxy
        · simp [hxy]
        · subst hxy
          simp [lt_irrefl] at h ⊢
          exact ih h
        · simp [not_lt_of_lt hxy, ne_of_gt hxy] at h

theorem filterMap_if_eq_filter_map {α β : Type} (l : List α) (f : α → β) (p : β → Bool) :
    (l.filterMap fun x => if p (f x) then some (f x) else none) = (l.map f).filter p := by
  induction l with
  | nil => rfl
  | cons x xs ih =>
    simp only [List.filterMap_cons, List.map_cons, List.filter_cons]
    by_cases h : p (f x) = true <;> simp [h, ih]

theorem composeDate_take4 {y : Str} (m d : Str) (h : y.length = 4) :
    (composeDate y m d).take 4 = y := by
  unfold composeDate
  simp only [chars_dash, List.append_assoc]
  exact List.take_left' h

theorem composeDate_take7 {y m : Str} (d : Str) (h4 : y.length = 4) (h2 : m.length = 2) :
    (composeDate y m d).take 7 = y ++ chars "-" ++ m := by
  unfold composeDate
  have hsplit : y ++ chars "-" ++ m ++ chars "-" ++ d = (y ++ chars "-" ++ m) ++ (chars "-" ++ d) := by
    simp [List.append_assoc]
  rw [hsplit]
  refine List.take_left' ?_
  simp [h4, h2]

theorem year_filter_pass {s e y m d : Str} (h4 : y.length = 4)
    (h : inRange s e (composeDate y m d) = true) :
    (lexLe (s.take 4) y && lexLe y (e.take 4)) = true := by
  simp only [inRange, Bool.and_eq_true] at h ⊢
  refine ⟨?_, ?_⟩
  · have := lexLe_take 4 h.1
    rwa [composeDate_take4 m d h4] at this
  · have := lexLe_take 4 h.2
    rwa [composeDate_take4 m d h4] at this

theorem month_filter_pass {s e y m d : Str} (h4 : y.length = 4) (h2 : m.length = 2)
    (h : inRange s e (composeDate y m d) = true) :
    (lexLe (s.take 7) (y ++ chars "-" ++ m) && lexLe (y ++ chars "-" ++ m) (e.take 7)) = true := by
  simp only [inRange, Bool.and_eq_true] at h ⊢
  refine ⟨?_, ?_⟩
  · have := lexLe_take 7 h.1
    rwa [composeDate_take7 d h4 h2] at this
  · have := lexLe_take 7 h.2
    rwa [composeDate_take7 d h4 h2] at this

theorem composeDate_inj {y y' m m' : Str} {d d' : Str} (hy : y.length = 4)
    (hy' : y'.length = 4) (hm : m.length = 2) (hm' : m'.length = 2)
    (h : composeDate y m d = composeDate y' m' d') : y = y' ∧ m = m' ∧ d = d' := by
  unfold composeDate at h
  simp only [chars_dash, List.append_assoc, List.singleton_append] at h
  obtain ⟨hyy, hrest⟩ := List.append_inj h (hy.trans hy'.symm)
  injection hrest with h1 hrest2
  obtain ⟨hmm, hdd⟩ := List.append_inj hrest2 (hm.trans hm'.symm)
  injection hdd with h2 hdd2
  exact ⟨hyy, hmm, hdd2⟩

theorem datesUnder_eq_presentFilter (ls : Str → List Str) (pfx s e : Str)
    (hY4 : ∀ y ∈ dirKeys (ls pfx), y.length = 4)
    (hM2 : ∀ y ∈ dirKeys (ls pfx),
      ∀ m ∈ dirKeys (ls (pfx ++ y ++ chars "/")), m.length = 2) :
    datesUnder ls pfx s e = (presentDates ls pfx).filter (inRange s e) := by
  unfold datesUnder presentDates
  rw [List.filter_flatMap]
  refine List.flatMap_congr ?_
  intro y hy
  rw [List.filter_flatMap]
  by_cases hyf : (lexLe (s.take 4) y && lexLe y (e.take 4)) = true
  · rw [if_pos hyf]
    refine List.flatMap_congr ?_
    intro m hm
    by_cases hmf : (lexLe (s.take 7) (y ++ chars "-" ++ m) &&
        lexLe (y ++ chars "-" ++ m) (e.take 7)) = true
    · rw [if_pos hmf]
      have := filterMap_if_eq_filter_map
        (dirKeys (ls (pfx ++ y ++ chars "/" ++ m ++ chars "/")))
        (fun day => composeDate y m day) (inRange s e)
      simpa [inRange] using this
    · rw [if_neg hmf]
      symm
      rw [List.filter_eq_nil_iff]
      intro a ha
      obtain ⟨day, _, rfl⟩ := List.mem_map.1 ha
      intro hcon
      exact hmf (month_filter_pass (hY4 y hy) (hM2 y hy m hm) hcon)
  · rw [if_neg hyf]
    symm
    rw [List.flatMap_eq_nil_iff]
    intro m hm
    rw [List.filter_eq_nil_iff]
    intro a ha
    obtain ⟨day, _, rfl⟩ := List.mem_map.1 ha
    intro hcon
    exact hyf (year_filter_pass (hY4 y hy) hcon)

theorem presentDates_nodup (ls : Str → List Str) (pfx : Str)
    (hY4 : ∀ y ∈ dirKeys (ls pfx), y.length = 4)
    (hYnd : (dirKeys (ls pfx)).Nodup)
    (hM2 : ∀ y ∈ dirKeys (ls pfx),
      ∀ m ∈ dirKeys (ls (pfx ++ y ++ chars "/")), m.length = 2)
    (hMnd : ∀ y ∈ dirKeys (ls pfx), (dirKeys (ls (pfx ++ y ++ chars "/"))).Nodup)
    (hDnd : ∀ y ∈ dirKeys (ls pfx), ∀ m ∈ dirKeys (ls (pfx ++ y ++ chars "/")),
      (dirKeys (ls (pfx ++ y ++ chars "/" ++ m ++ chars "/"))).Nodup) :
    (presentDates ls pfx).Nodup := by
  unfold presentDates
  rw [List.nodup_flatMap]
  constructor
  · intro y hy
    rw [List.nodup_flatMap]
    constructor
    · intro m hm
      refine List.Nodup.map ?_ (hDnd y hy m hm)
      intro d d' hdd
      exact (composeDate_inj (hY4 y hy) (hY4 y hy) (hM2 y hy m hm) (hM2 y hy m hm) hdd).2.2
    · refine List.Pairwise.imp_of_mem ?_ (hMnd y hy)
      intro m m' hm hm' hne
      simp only [Function.onFun]
      intro a ham ham'
      obtain ⟨d, _, rfl⟩ := List.mem_map.1 ham
      obtain ⟨d', _, hEq⟩ := List.mem_map.1 ham'
      exact hne ((composeDate_inj (hY4 y hy) (hY4 y hy) (hM2 y hy m hm)
        (hM2 y hy m' hm') hEq.symm).2.1)
  · refine List.Pairwise.imp_of_mem ?_ hYnd
    intro y y' hy hy' hne
    simp only [Function.onFun]
    intro a ha ha'
    obtain ⟨m, hm, ham⟩ := List.mem_flatMap.1 ha
    obtain ⟨d, _, rfl⟩ := List.mem_map.1 ham
    obtain ⟨m', hm', ham'⟩ := List.mem_flatMap.1 ha'
    obtain ⟨d', _, hEq⟩ := List.mem_map.1 ham'
    exact hne ((composeDate_inj (hY4 y hy) (hY4 y' hy') (hM2 y hy m hm)
      (hM2 y' hy' m' hm') hEq.symm).1)

theorem lexLe_total_or (a b : Str) : (lexLe a b || lexLe b a) = true := by
  rcases lexLe_total a b with h | h <;> simp [h]

theorem insertLe_perm (d : Str) (l : List Str) : (insertLe d l).Perm (d :: l) := by
  induction l with
  | nil => simp [insertLe]
  | cons x xs ih =>
    simp only [insertLe]
    by_cases h : lexLe d x = true
    · simp [h]
    · simp only [h, if_false]
      exact (List.Perm.cons x ih).trans (List.Perm.swap d x xs)

theorem pySorted_perm (l : List Str) : (pySorted l).Perm l := by
  induction l with
  | nil => simp [pySorted]
  | cons x xs ih =>
    exact (insertLe_perm x (pySorted xs)).trans (List.Perm.cons x ih)

theorem insertLe_pairwise {d : Str} {l : List Str}
    (h : l.Pairwise (fun a b => lexLe a b = true)) :
    (insertLe d l).Pairwise (fun a b => lexLe a b = true) := by
  induction l with
  | nil => simp [insertLe]
  | cons x xs ih =>
    rw [List.pairwise_cons] at h
    simp only [insertLe]
    by_cases hd : lexLe d x = true
    · rw [if_pos hd, List.pairwise_cons]
      refine ⟨?_, List.pairwise_cons.2 h⟩
      intro b hb
      rcases List.mem_cons.1 hb with rfl | hb1
      · exact hd
      · exact lexLe_trans hd (h.1 b hb1)
    · have hxd : lexLe x d = true := by
        rcases lexLe_total d x with ht | ht
        · exact absurd ht hd
        · exact ht
      rw [if_neg hd, List.pairwise_cons]
      refine ⟨?_, ih h.2⟩
      intro b hb
      have hb1 := (insertLe_perm d xs).mem_iff.1 hb
      rcases List.mem_cons.1 hb1 with rfl | hb2
      · exact hxd
      · exact h.1 b hb2

theorem pySorted_pairwise (l : List Str) :
    (pySorted l).Pairwise (fun a b => lexLe a b = true) := by
  induction l with
  | nil => simp [pySorted]
  | cons x xs ih => exact insertLe_pairwise ih

/-- A synthetic remote tree whose root listing repeats a year line: the
scan then walks the `2025` branch twice. -/
def c1ceTree : Str → S3Result := fun p =>
  if p = chars "b/007/080/" then ⟨0, chars "   PRE 2025/\n   PRE 2025/"⟩
  else if p = chars "b/007/080/2025/" then ⟨0, chars "   PRE 01/"⟩
  else if p = chars "b/007/080/2025/01/" then ⟨0, chars "   PRE 01/"⟩
  else ⟨1, []⟩

/-- Claim C1, counterexample: quantified over every remote prefix tree the
claim is false — `list_available_dates` never deduplicates, so a tree
whose listing output repeats an entry makes the returned sequence contain
the same date twice, refuting "with no duplicates" (here the result is
`["2025-01-01", "2025-01-01"]`). -/
theorem spec_c1_counterexample :
    ¬ (list_available_dates c1ceTree (chars "7") (chars "80") (chars "b")
        (chars "2025-01-01") (chars "2025-12-31")).Nodup := by decide

/-- Claim C1 (amended): for every date range and every remote prefix tree
whose listings, per level, yield duplicate-free directory keys of the
shape of date components (4-character years, 2-character months), Date
Discovery returns exactly the day-level dates present under the tile's
root that lie in the inclusive range — as a permutation of the in-range
present dates (hence the same multiset, and empty when nothing matches,
rather than an error) — sorted strictly ascending (hence duplicate-free). -/
theorem spec_c1_theorem (run : Str → S3Result) (path row base_url start_date end_date : Str)
    (hY4 : ∀ y ∈ dirKeys (list_s3 run (tileRoot base_url path row)), y.length = 4)
    (hYnd : (dirKeys (list_s3 run (tileRoot base_url path row))).Nodup)
    (hM2 : ∀ y ∈ dirKeys (list_s3 run (tileRoot base_url path row)),
      ∀ m ∈ dirKeys (list_s3 run (tileRoot base_url path row ++ y ++ chars "/")), m.length = 2)
    (hMnd : ∀ y ∈ dirKeys (list_s3 run (tileRoot base_url path row)),
      (dirKeys (list_s3 run (tileRoot base_url path row ++ y ++ chars "/"))).Nodup)
    (hDnd : ∀ y ∈ dirKeys (list_s3 run (tileRoot base_url path row)),
      ∀ m ∈ dirKeys (list_s3 run (tileRoot base_url path row ++ y ++ chars "/")),
      (dirKeys (list_s3 run
        (tileRoot base_url path row ++ y ++ chars "/" ++ m ++ chars "/"))).Nodup) :
    (list_available_dates run path row base_url start_date end_date).Perm
      ((presentDates (list_s3 run) (tileRoot base_url path row)).filter
        (inRange start_date end_date))
    ∧ (list_available_dates run path row base_url start_date end_date).Pairwise
        (fun a b => lexLt a b = true) := by
  have heq := datesUnder_eq_presentFilter (list_s3 run) (tileRoot base_url path row)
    start_date end_date hY4 hM2
  have h0 : list_available_dates run path row base_url start_date end_date
      = pySorted ((presentDates (list_s3 run) (tileRoot base_url path row)).filter
          (inRange start_date end_date)) := by
    unfold list_available_dates
    rw [heq]
  have hperm : (list_available_dates run path row base_url start_date end_date).Perm
      ((presentDates (list_s3 run) (tileRoot base_url path row)).filter
        (inRange start_date end_date)) := by
    rw [h0]
    exact pySorted_perm _
  have hndf : ((presentDates (list_s3 run) (tileRoot base_url path row)).filter
      (inRange start_date end_date)).Nodup :=
    List.Nodup.filter _ (presentDates_nodup _ _ hY4 hYnd hM2 hMnd hDnd)
  have hnd : (list_available_dates run path row base_url start_date end_date).Nodup :=
    hperm.symm.nodup hndf
  have hsorted : (list_available_dates run path row base_url start_date end_date).Pairwise
      (fun a b => lexLe a b = true) := by
    rw [h0]
    exact pySorted_pairwise _
  refine ⟨hperm, ?_⟩
  refine List.Pairwise.imp ?_ (List.Pairwise.and hsorted hnd)
  intro a b hab
  exact lexLt_of_le_of_ne hab.1 hab.2

/-- A well-formed synthetic remote tree (4-character years, 2-character
months, no repeated keys; one failing month listing and one slash-free
line that the scan ignores). -/
def c1wTree : Str → S3Result := fun p =>
  if p = chars "b/007/080/" then ⟨0, chars "   PRE 2024/\n   PRE 2025/\nnoslash"⟩
  else if p = chars "b/007/080/2024/" then ⟨0, chars "   PRE 12/"⟩
  else if p = chars "b/007/080/2024/12/" then ⟨0, chars "   PRE 31/\n   PRE 30/"⟩
  else if p = chars "b/007/080/2025/" then ⟨0, chars "   PRE 01/\n   PRE 02/"⟩
  else if p = chars "b/007/080/2025/01/" then ⟨0, chars "   PRE 01/\n   PRE 03/"⟩
  else ⟨1, []⟩

/-- Witness for the amended Claim C1 on a concrete well-formed tree. -/
theorem spec_c1_witness :
    (list_available_dates c1wTree (chars "7") (chars "80") (chars "b")
        (chars "2024-12-31") (chars "2025-02-28")).Perm
      ((presentDates (list_s3 c1wTree) (tileRoot (chars "b") (chars "7") (chars "80"))).filter
        (inRange (chars "2024-12-31") (chars "2025-02-28")))
    ∧ (list_available_dates c1wTree (chars "7") (chars "80") (chars "b")
        (chars "2024-12-31") (chars "2025-02-28")).Pairwise
        (fun a b => lexLt a b = true) :=
  spec_c1_theorem c1wTree (chars "7") (chars "80") (chars "b")
    (chars "2024-12-31") (chars "2025-02-28")
    (by decide) (by decide) (by decide) (by decide) (by decide)

/-- Claim C5: a listing call that fails (non-zero return code) yields zero
children — `list_s3` returns `[]` for it — and the whole discovery result
is identical to what an empty successful listing at that prefix would
give: no error propagates and sibling branches are unaffected. -/
theorem spec_c5_theorem (run : Str → S3Result)
    (path row base_url start_date end_date p : Str)
    (h : (run p).returncode ≠ 0) :
    list_s3 run p = [] ∧
    list_available_dates run path row base_url start_date end_date
      = list_available_dates (overrideEnv run p ⟨0, []⟩)
          path row base_url start_date end_date := by
  have hp : list_s3 run p = [] := by
    unfold list_s3
    rw [if_neg h]
  refine ⟨hp, ?_⟩
  have hstep : ∀ (f g : Str → S3Result) (q : Str), f q = g q →
      list_s3 f q = list_s3 g q := by
    intro f g q hfg
    unfold list_s3
    rw [hfg]
  have hls : list_s3 (overrideEnv run p ⟨0, []⟩) = list_s3 run := by
    funext q
    by_cases hq : q = p
    · rw [hq]
      have e1 : list_s3 (overrideEnv run p ⟨0, []⟩) p
          = list_s3 (fun _ => (⟨0, []⟩ : S3Result)) p :=
        hstep _ _ _ (if_pos rfl)
      rw [e1, hp]
      rfl
    · exact hstep _ _ _ (if_neg hq)
  unfold list_available_dates
  rw [hls]

/-- A tree with one healthy month branch and one month whose listing call
fails with return code 1. -/
def c5Tree : Str → S3Result := fun p =>
  if p = chars "b/007/080/" then ⟨0, chars "   PRE 2025/"⟩
  else if p = chars "b/007/080/2025/" then ⟨0, chars "   PRE 01/\n   PRE 02/"⟩
  else if p = chars "b/007/080/2025/01/" then ⟨0, chars "   PRE 07/"⟩
  else if p = chars "b/007/080/2025/02/" then ⟨2, chars "transient error"⟩
  else ⟨1, []⟩

/-- Witness for Claim C5: the failing `02` month listing is equivalent to
an empty one; the sibling `01` branch still contributes its date. -/
theorem spec_c5_witness :
    list_s3 c5Tree (chars "b/007/080/2025/02/") = [] ∧
    list_available_dates c5Tree (chars "7") (chars "80") (chars "b")
        (chars "2025-01-01") (chars "2025-12-31")
      = list_available_dates (overrideEnv c5Tree (chars "b/007/080/2025/02/") ⟨0, []⟩)
          (chars "7") (chars "80") (chars "b")
          (chars "2025-01-01") (chars "2025-12-31") :=
  spec_c5_theorem c5Tree (chars "7") (chars "80") (chars "b")
    (chars "2025-01-01") (chars "2025-12-31") (chars "b/007/080/2025/02/") (by decide)

theorem splitOnChar_ne_nil (c : Char) (s : Str) : splitOnChar c s ≠ [] := by
  cases s with
  | nil => simp [splitOnChar]
  | cons x xs =>
    simp only [splitOnChar]
    cases h : splitOnChar c xs with
    | nil => simp
    | cons h t =>
      by_cases hx : x = c <;> simp [hx]

theorem splitOnChar_no_sep (c : Char) (a : Str) (ha : c ∉ a) :
    splitOnChar c a = [a] := by
  induction a with
  | nil => rfl
  | cons x xs ih =>
    have hx : x ≠ c := fun h => ha (h ▸ List.mem_cons_self x xs)
    have hxs : c ∉ xs := fun h => ha (List.mem_cons_of_mem x h)
    simp only [splitOnChar, ih hxs]
    simp [hx]

theorem splitOnChar_append (c : Char) (a rest : Str) (ha : c ∉ a) :
    splitOnChar c (a ++ c :: rest) = a :: splitOnChar c rest := by
  induction a with
  | nil =>
    simp only [List.nil_append, splitOnChar]
    cases h : splitOnChar c rest with
    | nil => exact absurd h (splitOnChar_ne_nil c rest)
    | cons h t => simp
  | cons x xs ih =>
    have hx : x ≠ c := fun h => ha (h ▸ List.mem_cons_self x xs)
    have hxs : c ∉ xs := fun h => ha (List.mem_cons_of_mem x h)
    simp only [List.cons_append, splitOnChar, List.append_eq]
    rw [ih hxs]
    simp [hx]

theorem splitOnChar_composeDate (y m d : Str) (hy : '-' ∉ y) (hm : '-' ∉ m)
    (hd : '-' ∉ d) : splitOnChar '-' (composeDate y m d) = [y, m, d] := by
  have h1 : composeDate y m d = y ++ '-' :: (m ++ '-' :: d) := by
    unfold composeDate
    simp [List.append_assoc]
  rw [h1, splitOnChar_append '-' y (m ++ '-' :: d) hy,
    splitOnChar_append '-' m d hm, splitOnChar_no_sep '-' d hd]

/-- Unfolding of `build_s3_cmd` on a well-formed (dash-free-component)
date: the remote prefix is the zero-padded hierarchical key with a
trailing separator, the local destination joins the *raw* path and row
with the date parts, and the argv requests a recursive unsigned copy. -/
theorem build_s3_cmd_eq (path row y m d base_url output_dir : Str)
    (hy : '-' ∉ y) (hm : '-' ∉ m) (hd : '-' ∉ d) :
    build_s3_cmd path row (composeDate y m d) base_url output_dir
      = some ([chars "aws", chars "s3", chars "cp",
          base_url ++ chars "/" ++ zfill 3 path ++ chars "/" ++ zfill 3 row ++ chars "/" ++
            y ++ chars "/" ++ m ++ chars "/" ++ d ++ chars "/",
          osJoin output_dir [path, row, y, m, d],
          chars "--recursive", chars "--no-sign-request"],
          base_url ++ chars "/" ++ zfill 3 path ++ chars "/" ++ zfill 3 row ++ chars "/" ++
            y ++ chars "/" ++ m ++ chars "/" ++ d ++ chars "/") := by
  unfold build_s3_cmd
  rw [splitOnChar_composeDate y m d hy hm hd]

/-- Claim C8: for every tile and discovered date (with dash-free
components), the task's remote source prefix is composed deterministically
as `base_url/path/row/year/month/day/` with `path` and `row` zero-padded
to width 3, and the copy command is a recursive (`--recursive`) copy of
that day-level prefix. -/
theorem spec_c8_theorem (path row y m d base_url output_dir : Str)
    (hy : '-' ∉ y) (hm : '-' ∉ m) (hd : '-' ∉ d) :
    ∃ t, build_s3_cmd path row (composeDate y m d) base_url output_dir = some t ∧
      t.2 = base_url ++ chars "/" ++ zfill 3 path ++ chars "/" ++ zfill 3 row ++ chars "/" ++
        y ++ chars "/" ++ m ++ chars "/" ++ d ++ chars "/" ∧
      t.1 = [chars "aws", chars "s3", chars "cp", t.2,
        osJoin output_dir [path, row, y, m, d],
        chars "--recursive", chars "--no-sign-request"] ∧
      chars "--recursive" ∈ t.1 := by
  refine ⟨_, build_s3_cmd_eq path row y m d base_url output_dir hy hm hd, rfl, rfl, ?_⟩
  simp

/-- Witness for Claim C8 at tile `(7, 80)`, date `2025-01-03`: the remote
prefix is `b/007/080/2025/01/03/`. -/
theorem spec_c8_witness :
    ∃ t, build_s3_cmd (chars "7") (chars "80")
        (composeDate (chars "2025") (chars "01") (chars "03")) (chars "b") (chars "out")
        = some t ∧
      t.2 = chars "b" ++ chars "/" ++ zfill 3 (chars "7") ++ chars "/" ++
        zfill 3 (chars "80") ++ chars "/" ++ chars "2025" ++ chars "/" ++ chars "01" ++
        chars "/" ++ chars "03" ++ chars "/" ∧
      t.1 = [chars "aws", chars "s3", chars "cp", t.2,
        osJoin (chars "out") [chars "7", chars "80", chars "2025", chars "01", chars "03"],
        chars "--recursive", chars "--no-sign-request"] ∧
      chars "--recursive" ∈ t.1 :=
  spec_c8_theorem (chars "7") (chars "80") (chars "2025") (chars "01") (chars "03")
    (chars "b") (chars "out") (by decide) (by decide) (by decide)

/-- Claim C7: a tile whose Discovery yields zero dates is not an error —
the construction loop emits the scan notice and a no-data notice for it,
contributes zero tasks, and continues with the remaining tiles exactly as
if the tile were absent. -/
theorem spec_c7_theorem (run : Str → S3Result)
    (start_date end_date base_url output_dir path row : Str)
    (rest : List (Str × Str))
    (h : list_available_dates run path row base_url start_date end_date = []) :
    processTiles run start_date end_date base_url output_dir ((path, row) :: rest)
      = (Event.scan path row :: Event.noData path row ::
          (processTiles run start_date end_date base_url output_dir rest).1,
         (processTiles run start_date end_date base_url output_dir rest).2.1,
         (processTiles run start_date end_date base_url output_dir rest).2.2) := by
  simp only [processTiles]
  rw [h]
  simp

/-- A remote store whose listing calls all fail: every tile discovers
zero dates. -/
def c7Tree : Str → S3Result := fun _ => ⟨1, []⟩

/-- Witness for Claim C7 on a concrete no-data tile followed by another
tile. -/
theorem spec_c7_witness :
    processTiles c7Tree (chars "2025-01-01") (chars "2025-12-31") (chars "b") (chars "out")
        ((chars "7", chars "80") :: [(chars "9", chars "90")])
      = (Event.scan (chars "7") (chars "80") :: Event.noData (chars "7") (chars "80") ::
          (processTiles c7Tree (chars "2025-01-01") (chars "2025-12-31") (chars "b")
            (chars "out") [(chars "9", chars "90")]).1,
         (processTiles c7Tree (chars "2025-01-01") (chars "2025-12-31") (chars "b")
            (chars "out") [(chars "9", chars "90")]).2.1,
         (processTiles c7Tree (chars "2025-01-01") (chars "2025-12-31") (chars "b")
            (chars "out") [(chars "9", chars "90")]).2.2) :=
  spec_c7_theorem c7Tree (chars "2025-01-01") (chars "2025-12-31") (chars "b") (chars "out")
    (chars "7") (chars "80") [(chars "9", chars "90")] (by decide)

/-- A usable path component: nonempty and free of the separator. -/
abbrev cleanComp (s : Str) : Prop := s ≠ [] ∧ '/' ∉ s

theorem mem_of_getLast_opt : ∀ {l : Str} {a : Char}, l.getLast? = some a → a ∈ l := by
  intro l
  induction l with
  | nil => intro a h; simp at h
  | cons x xs ih =>
    intro a h
    cases xs with
    | nil =>
      simp [List.getLast?] at h
      simp [h]
    | cons y ys =>
      rw [List.getLast?_cons_cons] at h
      exact List.mem_cons_of_mem x (ih h)

theorem getLast?_append_right (a b : Str) (hb : b ≠ []) :
    (a ++ b).getLast? = b.getLast? := by
  rw [List.getLast?_append]
  cases hl : b.getLast? with
  | none =>
    exact absurd (by rw [hl]; rfl)
      (fun hc : b.getLast?.isSome = false => by
        rw [List.getLast?_isSome.2 hb] at hc
        cases hc)
  | some x => rfl

theorem join2_clean (out b : Str) (hb : cleanComp b) :
    join2 out b
      = (if out = [] ∨ out.getLast? = some '/' then out else out ++ chars "/") ++ b := by
  unfold join2
  have hhead : ¬ b.head? = some '/' := by
    intro h
    exact hb.2 (List.mem_of_mem_head? (Option.mem_def.2 h))
  rw [if_neg hhead]
  by_cases hout : out = [] ∨ out.getLast? = some '/'
  · rw [if_pos hout, if_pos hout]
  · rw [if_neg hout, if_neg hout]

theorem join2_mid (acc b : Str) (hacc1 : acc ≠ []) (hacc2 : acc.getLast? ≠ some '/')
    (hb : cleanComp b) :
    join2 acc b = acc ++ '/' :: b ∧ (acc ++ '/' :: b) ≠ [] ∧
      (acc ++ '/' :: b).getLast? = b.getLast? := by
  refine ⟨?_, ?_, ?_⟩
  · rw [join2_clean acc b hb, if_neg (by push_neg; exact ⟨hacc1, hacc2⟩)]
    simp
  · simp
  · have h1 : ('/' :: b) ≠ [] := by simp
    rw [getLast?_append_right acc _ h1]
    have h2 : ('/' :: b) = ['/'] ++ b := rfl
    rw [h2, getLast?_append_right ['/'] b hb.1]

theorem getLast?_of_clean {b : Str} (hb : cleanComp b) : b.getLast? ≠ some '/' :=
  fun h => hb.2 (mem_of_getLast_opt h)

theorem osJoin_five (out p r y m d : Str)
    (hp : cleanComp p) (hr : cleanComp r) (hy : cleanComp y) (hm : cleanComp m)
    (hd : cleanComp d) :
    osJoin out [p, r, y, m, d]
      = (if out = [] ∨ out.getLast? = some '/' then out else out ++ chars "/") ++
          (p ++ '/' :: (r ++ '/' :: (y ++ '/' :: (m ++ '/' :: d)))) := by
  have h1 := join2_clean out p hp
  have hA1ne : ((if out = [] ∨ out.getLast? = some '/' then out else out ++ chars "/") ++ p)
      ≠ [] := by simp [hp.1]
  have hA1last : ((if out = [] ∨ out.getLast? = some '/' then out else out ++ chars "/") ++ p).getLast?
      = p.getLast? := getLast?_append_right _ p hp.1
  have hA1slash := hA1last ▸ getLast?_of_clean hp
  obtain ⟨h2, h2ne, h2last⟩ := join2_mid _ r hA1ne hA1slash hr
  have h2slash := h2last ▸ getLast?_of_clean hr
  obtain ⟨h3, h3ne, h3last⟩ := join2_mid _ y h2ne h2slash hy
  have h3slash := h3last ▸ getLast?_of_clean hy
  obtain ⟨h4, h4ne, h4last⟩ := join2_mid _ m h3ne h3slash hm
  have h4slash := h4last ▸ getLast?_of_clean hm
  obtain ⟨h5, _, _⟩ := join2_mid _ d h4ne h4slash hd
  show join2 (join2 (join2 (join2 (join2 out p) r) y) m) d = _
  rw [h1, h2, h3, h4, h5]
  simp [List.append_assoc]

theorem slashPeel {a b x y : Str} (ha : '/' ∉ a) (hb : '/' ∉ b)
    (h : a ++ '/' :: x = b ++ '/' :: y) : a = b ∧ x = y := by
  induction a generalizing b with
  | nil =>
    cases b with
    | nil => simpa using h
    | cons e es =>
      rw [List.nil_append, List.cons_append] at h
      injection h with h1 h2
      exact absurd (h1 ▸ List.mem_cons_self e es) hb
  | cons c cs ih =>
    cases b with
    | nil =>
      rw [List.nil_append, List.cons_append] at h
      injection h with h1 h2
      exact absurd (h1 ▸ List.mem_cons_self c cs) ha
    | cons e es =>
      rw [List.cons_append, List.cons_append] at h
      injection h with h1 h2
      have hcs : '/' ∉ cs := fun hc => ha (List.mem_cons_of_mem c hc)
      have hes : '/' ∉ es := fun hc => hb (List.mem_cons_of_mem e hc)
      obtain ⟨hab, hxy⟩ := ih hcs hes h2
      exact ⟨by rw [h1, hab], hxy⟩

theorem osJoin_five_inj {out p1 r1 y1 m1 d1 p2 r2 y2 m2 d2 : Str}
    (hp1 : cleanComp p1) (hr1 : cleanComp r1) (hy1 : cleanComp y1) (hm1 : cleanComp m1)
    (hd1 : cleanComp d1) (hp2 : cleanComp p2) (hr2 : cleanComp r2) (hy2 : cleanComp y2)
    (hm2 : cleanComp m2) (hd2 : cleanComp d2)
    (heq : osJoin out [p1, r1, y1, m1, d1] = osJoin out [p2, r2, y2, m2, d2]) :
    p1 = p2 ∧ r1 = r2 ∧ y1 = y2 ∧ m1 = m2 ∧ d1 = d2 := by
  rw [osJoin_five out p1 r1 y1 m1 d1 hp1 hr1 hy1 hm1 hd1,
    osJoin_five out p2 r2 y2 m2 d2 hp2 hr2 hy2 hm2 hd2] at heq
  have heq2 := List.append_cancel_left heq
  obtain ⟨hp, heq3⟩ := slashPeel hp1.2 hp2.2 heq2
  obtain ⟨hr, heq4⟩ := slashPeel hr1.2 hr2.2 heq3
  obtain ⟨hy, heq5⟩ := slashPeel hy1.2 hy2.2 heq4
  obtain ⟨hm, hd⟩ := slashPeel hm1.2 hm2.2 heq5
  exact ⟨hp, hr, hy, hm, hd⟩

/-- Claim C2, counterexample: for tile `(path="7", row="80")` and date
`2025-01-01` the constructed local destination (argv slot 4 of the copy
command) is `out/7/80/2025/01/01` — the path and row are *not*
zero-padded in the local destination, contradicting the claimed
`output_root/007/080/2025/01/01`. -/
theorem spec_c2_counterexample :
    (build_s3_cmd (chars "7") (chars "80") (chars "2025-01-01") (chars "b")
        (chars "out")).map (fun t => t.1[4]?)
      = some (some (chars "out/7/80/2025/01/01")) ∧
    chars "out/7/80/2025/01/01"
      ≠ osJoin (chars "out") [zfill 3 (chars "7"), zfill 3 (chars "80"),
          chars "2025", chars "01", chars "01"] := by
  constructor
  · decide
  · decide

/-- Claim C2 (amended): for every discovered (tile, date) pair the local
destination is `os.path.join(output_dir, path, row, year, month, day)`
with `path` and `row` exactly as supplied (NOT zero-padded — only the
remote prefix is padded), and for nonempty separator-free components the
destinations of two distinct (path, row, date) triples are distinct. -/
theorem spec_c2_theorem (base_url output_dir p1 r1 y1 m1 d1 p2 r2 y2 m2 d2 : Str)
    (hp1 : cleanComp p1) (hr1 : cleanComp r1) (hp2 : cleanComp p2) (hr2 : cleanComp r2)
    (hy1 : cleanComp y1) (hm1 : cleanComp m1) (hd1 : cleanComp d1)
    (hy2 : cleanComp y2) (hm2 : cleanComp m2) (hd2 : cleanComp d2)
    (hy1d : '-' ∉ y1) (hm1d : '-' ∉ m1) (hd1d : '-' ∉ d1)
    (hy2d : '-' ∉ y2) (hm2d : '-' ∉ m2) (hd2d : '-' ∉ d2)
    (hne : ¬ (p1 = p2 ∧ r1 = r2 ∧ composeDate y1 m1 d1 = composeDate y2 m2 d2)) :
    ∃ t1 t2,
      build_s3_cmd p1 r1 (composeDate y1 m1 d1) base_url output_dir = some t1 ∧
      build_s3_cmd p2 r2 (composeDate y2 m2 d2) base_url output_dir = some t2 ∧
      t1.1[4]? = some (osJoin output_dir [p1, r1, y1, m1, d1]) ∧
      t2.1[4]? = some (osJoin output_dir [p2, r2, y2, m2, d2]) ∧
      osJoin output_dir [p1, r1, y1, m1, d1] ≠ osJoin output_dir [p2, r2, y2, m2, d2] := by
  refine ⟨_, _, build_s3_cmd_eq p1 r1 y1 m1 d1 base_url output_dir hy1d hm1d hd1d,
    build_s3_cmd_eq p2 r2 y2 m2 d2 base_url output_dir hy2d hm2d hd2d, rfl, rfl, ?_⟩
  intro hcon
  obtain ⟨hp, hr, hy, hm, hd⟩ :=
    osJoin_five_inj hp1 hr1 hy1 hm1 hd1 hp2 hr2 hy2 hm2 hd2 hcon
  exact hne ⟨hp, hr, by rw [hy, hm, hd]⟩

/-- Witness for the amended Claim C2: the two tasks of the spec's own
example — tile `(7, 80)`, dates `2025-01-01` and `2025-01-03` — get the
distinct (unpadded) destinations `out/7/80/2025/01/01` and
`out/7/80/2025/01/03`. -/
theorem spec_c2_witness :
    ∃ t1 t2,
      build_s3_cmd (chars "7") (chars "80")
          (composeDate (chars "2025") (chars "01") (chars "01")) (chars "b") (chars "out")
        = some t1 ∧
      build_s3_cmd (chars "7") (chars "80")
          (composeDate (chars "2025") (chars "01") (chars "03")) (chars "b") (chars "out")
        = some t2 ∧
      t1.1[4]? = some (osJoin (chars "out")
        [chars "7", chars "80", chars "2025", chars "01", chars "01"]) ∧
      t2.1[4]? = some (osJoin (chars "out")
        [chars "7", chars "80", chars "2025", chars "01", chars "03"]) ∧
      osJoin (chars "out") [chars "7", chars "80", chars "2025", chars "01", chars "01"]
        ≠ osJoin (chars "out") [chars "7", chars "80", chars "2025", chars "01", chars "03"] :=
  spec_c2_theorem (chars "b") (chars "out") (chars "7") (chars "80")
    (chars "2025") (chars "01") (chars "01") (chars "7") (chars "80")
    (chars "2025") (chars "01") (chars "03")
    (by decide) (by decide) (by decide) (by decide) (by decide) (by decide) (by decide)
    (by decide) (by decide) (by decide) (by decide) (by decide) (by decide)
    (by decide) (by decide) (by decide) (by decide)

/-- Events of the execution phase (a copy beginning, its outcome, or the
sequential progress counter). -/
def isDownloadActionEvent : Event → Bool
  | Event.progress _ _ => true
  | Event.downloading _ => true
  | Event.done _ => true
  | Event.failed _ _ => true
  | _ => false

/-- Events of the discovery/construction phase. -/
def isBuildEvent : Event → Bool
  | Event.scan _ _ => true
  | Event.noData _ _ => true
  | Event.found _ _ _ => true
  | _ => false

/-- A per-tile scan notice. -/
def isScanEvent : Event → Bool
  | Event.scan _ _ => true
  | _ => false

/-- A reported per-task outcome (success or failure). -/
def isOutcomeEvent : Event → Bool
  | Event.done _ => true
  | Event.failed _ _ => true
  | _ => false

theorem countP_flatMap {α β : Type} (l : List α) (f : α → List β) (p : β → Bool) :
    (l.flatMap f).countP p = (l.map (fun x => (f x).countP p)).sum := by
  induction l with
  | nil => simp
  | cons x xs ih => simp [List.flatMap_cons, List.countP_append, ih]

theorem enumFrom_flatMap_snd {α β : Type} (l : List α) (g : α → List β) :
    ∀ i : Nat, ((l.enumFrom i).flatMap (fun it => g it.2)) = l.flatMap g := by
  induction l with
  | nil => intro i; rfl
  | cons x xs ih =>
    intro i
    simp only [List.enumFrom, List.flatMap_cons, ih (i + 1)]

/-- countP of the execution trace, for predicates that ignore the
sequential progress notices: it is the sum of the per-task run_download
counts, in either mode. -/
theorem countP_executeTasks (copy : List Str → Int) (multithread : Bool)
    (sched : List S3Task → List S3Task) (tasks : List S3Task)
    (hs : multithread = true → (sched tasks).Perm tasks) (p : Event → Bool)
    (hprog : ∀ i total, p (Event.progress i total) = false) :
    (executeTasks copy multithread sched tasks).countP p
      = (tasks.map (fun t => (run_download copy t.1 t.2).countP p)).sum := by
  unfold executeTasks
  by_cases hm : multithread = true
  · rw [if_pos hm, countP_flatMap]
    exact List.Perm.sum_eq (List.Perm.map _ (hs hm))
  · rw [if_neg hm]
    have h1 : ((tasks.enumFrom 1).flatMap
        (fun it => Event.progress it.1 tasks.length :: run_download copy it.2.1 it.2.2)).countP p
        = ((tasks.enumFrom 1).flatMap
            (fun it => run_download copy it.2.1 it.2.2)).countP p := by
      rw [countP_flatMap, countP_flatMap]
      congr 1
      refine List.map_congr_left ?_
      intro it _
      have h2 : p (Event.progress it.1 tasks.length) = false := hprog it.1 tasks.length
      simp [List.countP_cons, h2]
    rw [h1, enumFrom_flatMap_snd tasks (fun t => run_download copy t.1 t.2) 1,
      countP_flatMap]

theorem sum_map_ite {α : Type} (l : List α) (q : α → Bool) :
    (l.map (fun t => if q t then 1 else 0)).sum = l.countP q := by
  induction l with
  | nil => simp
  | cons x xs ih =>
    by_cases h : q x
    · simp [List.countP_cons, h, ih]
      omega
    · simp [List.countP_cons, h, ih]

theorem run_download_countP_downloading (copy : List Str → Int) (cmd : List Str)
    (sp s : Str) :
    (run_download copy cmd sp).countP (fun e => e == Event.downloading s)
      = if sp = s then 1 else 0 := by
  by_cases hc : copy cmd = 0 <;>
    by_cases hsp : sp = s <;>
      simp [run_download, hc, hsp, List.countP_cons]

theorem run_download_countP_done (copy : List Str → Int) (cmd : List Str) (sp s : Str) :
    (run_download copy cmd sp).countP (fun e => e == Event.done s)
      = if sp = s ∧ copy cmd = 0 then 1 else 0 := by
  by_cases hc : copy cmd = 0 <;>
    by_cases hsp : sp = s <;>
      simp [run_download, hc, hsp, List.countP_cons]

theorem run_download_countP_failed (copy : List Str → Int) (cmd : List Str) (sp s : Str)
    (c : Int) (hcz : c ≠ 0) :
    (run_download copy cmd sp).countP (fun e => e == Event.failed s c)
      = if sp = s ∧ copy cmd = c then 1 else 0 := by
  by_cases hc : copy cmd = 0
  · have hng : ¬ (sp = s ∧ copy cmd = c) := fun hcon => hcz (hcon.2 ▸ hc)
    rw [if_neg hng]
    simp [run_download, hc, List.countP_cons]
  · by_cases hsp : sp = s <;> by_cases hcc : copy cmd = c <;>
      simp [run_download, hc, hsp, hcc, hcz, List.countP_cons]

/-- Claim C3: in either execution mode the Dispatcher attempts every
constructed task exactly once — the trace contains one copy start
(`downloading`) per task occurrence, no more (no retry) and no less —
and a non-zero exit is reported as a failure event carrying the failing
prefix and the exit code, one per failing task, without preventing any
sibling task's attempt (the counts hold for every exit-code assignment
`copy`, so one task's failure never changes another task's entries; no
cleanup action exists in the trace). -/
theorem spec_c3_theorem (copy : List Str → Int) (multithread : Bool)
    (sched : List S3Task → List S3Task) (tasks : List S3Task)
    (hs : (sched tasks).Perm tasks) :
    (∀ s : Str,
      (executeTasks copy multithread sched tasks).count (Event.downloading s)
        = (tasks.map Prod.snd).count s)
    ∧ (∀ (s : Str) (c : Int), c ≠ 0 →
      (executeTasks copy multithread sched tasks).count (Event.failed s c)
        = tasks.countP (fun t => t.2 == s && copy t.1 == c))
    ∧ (∀ s : Str,
      (executeTasks copy multithread sched tasks).count (Event.done s)
        = tasks.countP (fun t => t.2 == s && copy t.1 == 0)) := by
  refine ⟨?_, ?_, ?_⟩
  · intro s
    rw [List.count_eq_countP,
      countP_executeTasks copy multithread sched tasks (fun _ => hs) _ (fun i total => by simp),
      List.map_congr_left (fun t _ => run_download_countP_downloading copy t.1 t.2 s),
      List.count_eq_countP, List.countP_map,
      ← sum_map_ite tasks ((fun x => x == s) ∘ Prod.snd)]
    refine congrArg List.sum (List.map_congr_left ?_)
    intro t _
    by_cases h : t.2 = s <;> simp [Function.comp, h]
  · intro s c hc
    rw [List.count_eq_countP,
      countP_executeTasks copy multithread sched tasks (fun _ => hs) _ (fun i total => by simp),
      List.map_congr_left (fun t _ => run_download_countP_failed copy t.1 t.2 s c hc),
      ← sum_map_ite tasks (fun t => t.2 == s && copy t.1 == c)]
    refine congrArg List.sum (List.map_congr_left ?_)
    intro t _
    by_cases h1 : t.2 = s <;> by_cases h2 : copy t.1 = c <;> simp [h1, h2]
  · intro s
    rw [List.count_eq_countP,
      countP_executeTasks copy multithread sched tasks (fun _ => hs) _ (fun i total => by simp),
      List.map_congr_left (fun t _ => run_download_countP_done copy t.1 t.2 s),
      ← sum_map_ite tasks (fun t => t.2 == s && copy t.1 == 0)]
    refine congrArg List.sum (List.map_congr_left ?_)
    intro t _
    by_cases h1 : t.2 = s <;> by_cases h2 : copy t.1 = 0 <;> simp [h1, h2]

/-- A copy oracle failing exactly on the `02` day prefix with exit code 1. -/
def c3Copy : List Str → Int := fun cmd =>
  if (chars "b/007/080/2025/01/02/") ∈ cmd then 1 else 0

/-- Three concrete tasks (the middle one will fail under `c3Copy`). -/
def c3Tasks : List S3Task :=
  [([chars "aws", chars "s3", chars "cp", chars "b/007/080/2025/01/01/",
     chars "out/7/80/2025/01/01", chars "--recursive", chars "--no-sign-request"],
    chars "b/007/080/2025/01/01/"),
   ([chars "aws", chars "s3", chars "cp", chars "b/007/080/2025/01/02/",
     chars "out/7/80/2025/01/02", chars "--recursive", chars "--no-sign-request"],
    chars "b/007/080/2025/01/02/"),
   ([chars "aws", chars "s3", chars "cp", chars "b/007/080/2025/01/03/",
     chars "out/7/80/2025/01/03", chars "--recursive", chars "--no-sign-request"],
    chars "b/007/080/2025/01/03/")]

/-- Witness for Claim C3: three sequential tasks with an injected failure
on the middle one. -/
theorem spec_c3_witness :
    (∀ s : Str,
      (executeTasks c3Copy false id c3Tasks).count (Event.downloading s)
        = (c3Tasks.map Prod.snd).count s)
    ∧ (∀ (s : Str) (c : Int), c ≠ 0 →
      (executeTasks c3Copy false id c3Tasks).count (Event.failed s c)
        = c3Tasks.countP (fun t => t.2 == s && c3Copy t.1 == c))
    ∧ (∀ s : Str,
      (executeTasks c3Copy false id c3Tasks).count (Event.done s)
        = c3Tasks.countP (fun t => t.2 == s && c3Copy t.1 == 0)) :=
  spec_c3_theorem c3Copy false id c3Tasks (List.Perm.refl _)

/-- Claim C4: with concurrency enabled, every one of the `N` tasks is
executed exactly once regardless of the completion order the pool yields
(any permutation `sched`), and the multiset of reported per-task outcomes
(success/failure events) is exactly the multiset reported by sequential
execution of the same inputs. -/
theorem spec_c4_theorem (copy : List Str → Int) (sched : List S3Task → List S3Task)
    (tasks : List S3Task) (hs : (sched tasks).Perm tasks) :
    ((executeTasks copy true sched tasks).filter isOutcomeEvent).Perm
      ((executeTasks copy false sched tasks).filter isOutcomeEvent)
    ∧ (∀ s : Str,
      (executeTasks copy true sched tasks).count (Event.downloading s)
        = (tasks.map Prod.snd).count s) := by
  constructor
  · unfold executeTasks
    rw [if_pos rfl, if_neg (by simp)]
    rw [List.filter_flatMap, List.filter_flatMap]
    have hseq : ∀ it : Nat × S3Task, it ∈ tasks.enumFrom 1 →
        List.filter isOutcomeEvent
            (Event.progress it.1 tasks.length :: run_download copy it.2.1 it.2.2)
          = List.filter isOutcomeEvent (run_download copy it.2.1 it.2.2) := by
      intro it _
      rw [List.filter_cons_of_neg]
      simp [isOutcomeEvent]
    rw [List.flatMap_congr hseq,
      enumFrom_flatMap_snd tasks
        (fun t => List.filter isOutcomeEvent (run_download copy t.1 t.2)) 1]
    exact List.Perm.flatMap_right _ hs
  · intro s
    rw [List.count_eq_countP,
      countP_executeTasks copy true sched tasks (fun _ => hs) _ (fun i total => by simp),
      List.map_congr_left (fun t _ => run_download_countP_downloading copy t.1 t.2 s),
      List.count_eq_countP, List.countP_map,
      ← sum_map_ite tasks ((fun x => x == s) ∘ Prod.snd)]
    refine congrArg List.sum (List.map_congr_left ?_)
    intro t _
    by_cases h : t.2 = s <;> simp [Function.comp, h]

/-- A completion order for the witness: the pool yields the tasks in
reversed submission order. -/
def c4Sched : List S3Task → List S3Task := List.reverse

/-- Witness for Claim C4 with a reversed completion order and a failure
injected on the middle task. -/
theorem spec_c4_witness :
    ((executeTasks c3Copy true c4Sched c3Tasks).filter isOutcomeEvent).Perm
      ((executeTasks c3Copy false c4Sched c3Tasks).filter isOutcomeEvent)
    ∧ (∀ s : Str,
      (executeTasks c3Copy true c4Sched c3Tasks).count (Event.downloading s)
        = (c3Tasks.map Prod.snd).count s) :=
  spec_c4_theorem c3Copy c4Sched c3Tasks (List.reverse_perm c3Tasks)


theorem strpDay_not_dash {s : Str} {n : Nat} (h : strpDay s = some n) : '-' ∉ s := by
  intro hmem
  cases s with
  | nil => simp at hmem
  | cons c1 t1 =>
    cases t1 with
    | nil =>
      simp only [List.mem_cons, List.not_mem_nil, or_false] at hmem
      subst hmem
      simp [strpDay] at h
    | cons c2 t2 =>
      cases t2 with
      | nil =>
        simp only [List.mem_cons, List.not_mem_nil, or_false] at hmem
        rcases hmem with h1 | h1
        · subst h1
          simp [strpDay] at h
        · subst h1
          simp only [strpDay] at h
          repeat' split at h
          all_goals try simp_all
          all_goals
            (rename_i heq hcond
             obtain ⟨hA, hB⟩ := heq
             subst hB
             exact absurd hcond (by decide))
      | cons c3 t3 =>
        simp [strpDay] at h

theorem strpMonthDay_shape {s : Str} {v : Nat × Nat} (h : strpMonthDay s = some v) :
    ∃ mp dp, s = mp ++ '-' :: dp ∧ '-' ∉ mp ∧ '-' ∉ dp := by
  unfold strpMonthDay at h
  rw [Option.orElse_eq_some] at h
  rcases h with h | ⟨-, h⟩
  · split at h
    · rename_i c dr
      split at h
      · rename_i hc
        rw [Option.map_eq_some'] at h
        obtain ⟨d, hd, -⟩ := h
        refine ⟨['1', c], dr, rfl, ?_, strpDay_not_dash hd⟩
        simp only [Bool.or_eq_true, decide_eq_true_eq] at hc
        intro hm
        simp at hm
        try subst hm
        exact absurd hc (by decide)
      · cases h
    · cases h
  · rw [Option.orElse_eq_some] at h
    rcases h with h | ⟨-, h⟩
    · split at h
      · rename_i c dr
        split at h
        · rename_i hc
          rw [Option.map_eq_some'] at h
          obtain ⟨d, hd, -⟩ := h
          refine ⟨['0', c], dr, rfl, ?_, strpDay_not_dash hd⟩
          simp only [Bool.and_eq_true, decide_eq_true_eq] at hc
          intro hm
          simp at hm
          try subst hm
          exact absurd hc (by decide)
        · cases h
      · cases h
    · split at h
      · rename_i c dr
        split at h
        · rename_i hc
          rw [Option.map_eq_some'] at h
          obtain ⟨d, hd, -⟩ := h
          refine ⟨[c], dr, rfl, ?_, strpDay_not_dash hd⟩
          simp only [Bool.and_eq_true, decide_eq_true_eq] at hc
          intro hm
          simp at hm
          try subst hm
          exact absurd hc (by decide)
        · cases h
      · cases h

theorem strptimeYmd_shape {s : Str} {v : Nat × Nat × Nat} (h : strptimeYmd s = some v) :
    ∃ yp mp dp, s = composeDate yp mp dp ∧ '-' ∉ yp ∧ '-' ∉ mp ∧ '-' ∉ dp := by
  unfold strptimeYmd at h
  split at h
  · rename_i c1 c2 c3 c4 rest
    split at h
    · rename_i hdig
      split at h
      · rename_i m d hmd
        obtain ⟨mp, dp, rfl, hmp, hdp⟩ := strpMonthDay_shape hmd
        refine ⟨[c1, c2, c3, c4], mp, dp, ?_, ?_, hmp, hdp⟩
        · simp [composeDate]
        · simp only [Bool.and_eq_true] at hdig
          intro hm
          simp only [List.mem_cons, List.not_mem_nil, or_false] at hm
          rcases hm with hm | hm | hm | hm
          · rw [← hm] at hdig
            exact absurd hdig.1.1.1 (by decide)
          · rw [← hm] at hdig
            exact absurd hdig.1.1.2 (by decide)
          · rw [← hm] at hdig
            exact absurd hdig.1.2 (by decide)
          · rw [← hm] at hdig
            exact absurd hdig.2 (by decide)
      · cases h
    · cases h
  · cases h

theorem build_s3_cmd_isSome (path row base_url output_dir : Str) {d : Str}
    (h : (strptimeYmd d).isSome = true) :
    (build_s3_cmd path row d base_url output_dir).isSome = true := by
  obtain ⟨v, hv⟩ := Option.isSome_iff_exists.1 h
  obtain ⟨yp, mp, dp, rfl, hy, hm, hd⟩ := strptimeYmd_shape hv
  rw [build_s3_cmd_eq path row yp mp dp base_url output_dir hy hm hd]
  rfl

theorem buildTileTasks_ok (path row base_url output_dir : Str) (dates : List Str)
    (h : ∀ d ∈ dates, (strptimeYmd d).isSome = true) :
    ∃ ts, buildTileTasks path row base_url output_dir dates = Except.ok ts := by
  induction dates with
  | nil => exact ⟨[], rfl⟩
  | cons d rest ih =>
    obtain ⟨t, ht⟩ := Option.isSome_iff_exists.1
      (build_s3_cmd_isSome path row base_url output_dir (h d (List.mem_cons_self d rest)))
    obtain ⟨ts, hts⟩ := ih (fun x hx => h x (List.mem_cons_of_mem d hx))
    refine ⟨t :: ts, ?_⟩
    simp only [buildTileTasks, ht, hts]

theorem processTiles_events_build (run : Str → S3Result) (sd ed b o : Str) :
    ∀ tiles : List (Str × Str), ∀ ev ∈ (processTiles run sd ed b o tiles).1,
      isBuildEvent ev = true := by
  intro tiles
  induction tiles with
  | nil =>
    intro ev hev
    simp [processTiles] at hev
  | cons pr rest ih =>
    obtain ⟨p, r⟩ := pr
    intro ev hev
    by_cases hemp : (list_available_dates run p r b sd ed).isEmpty
    · simp only [processTiles, hemp, if_true] at hev
      simp only [List.mem_cons] at hev
      rcases hev with rfl | rfl | hev
      · rfl
      · rfl
      · exact ih ev hev
    · cases hfind : (list_available_dates run p r b sd ed).find?
        (fun d => (strptimeYmd d).isNone) with
      | some d =>
        simp only [processTiles] at hev
        rw [if_neg hemp, hfind] at hev
        simp at hev
        rw [hev]
        rfl
      | none =>
        cases hbuild : buildTileTasks p r b o (list_available_dates run p r b sd ed) with
        | error d =>
          simp only [processTiles] at hev
          rw [if_neg hemp, hfind, hbuild] at hev
          simp at hev
          rcases hev with rfl | rfl
          · rfl
          · rfl
        | ok ts =>
          simp only [processTiles] at hev
          rw [if_neg hemp, hfind, hbuild] at hev
          simp at hev
          rcases hev with rfl | rfl | hev
          · rfl
          · rfl
          · exact ih ev hev

theorem processTiles_scan_count (run : Str → S3Result) (sd ed b o : Str) :
    ∀ tiles : List (Str × Str), (processTiles run sd ed b o tiles).2.2 = none →
      (processTiles run sd ed b o tiles).1.countP isScanEvent = tiles.length := by
  intro tiles
  induction tiles with
  | nil =>
    intro _
    simp [processTiles]
  | cons pr rest ih =>
    obtain ⟨p, r⟩ := pr
    intro herr
    by_cases hemp : (list_available_dates run p r b sd ed).isEmpty
    · have herr2 : (processTiles run sd ed b o rest).2.2 = none := by
        simpa [processTiles, hemp] using herr
      simp [processTiles, hemp, List.countP_cons, isScanEvent, ih herr2]
    · cases hfind : (list_available_dates run p r b sd ed).find?
        (fun d => (strptimeYmd d).isNone) with
      | some d =>
        exact absurd herr (by simp [processTiles, hemp, hfind])
      | none =>
        cases hbuild : buildTileTasks p r b o (list_available_dates run p r b sd ed) with
        | error d =>
          exact absurd herr (by simp [processTiles, hemp, hfind, hbuild])
        | ok ts =>
          have herr2 : (processTiles run sd ed b o rest).2.2 = none := by
            simpa [processTiles, hemp, hfind, hbuild] using herr
          simp [processTiles, hemp, hfind, hbuild, List.countP_cons, isScanEvent, ih herr2]

theorem processTiles_append (run : Str → S3Result) (sd ed b o : Str) :
    ∀ l1 l2 : List (Str × Str), (processTiles run sd ed b o l1).2.2 = none →
      processTiles run sd ed b o (l1 ++ l2)
        = ((processTiles run sd ed b o l1).1 ++ (processTiles run sd ed b o l2).1,
           (processTiles run sd ed b o l1).2.1 ++ (processTiles run sd ed b o l2).2.1,
           (processTiles run sd ed b o l2).2.2) := by
  intro l1
  induction l1 with
  | nil =>
    intro l2 _
    simp [processTiles]
  | cons pr rest ih =>
    obtain ⟨p, r⟩ := pr
    intro l2 herr
    by_cases hemp : (list_available_dates run p r b sd ed).isEmpty
    · have herr2 : (processTiles run sd ed b o rest).2.2 = none := by
        simpa [processTiles, hemp] using herr
      simp [processTiles, hemp, ih l2 herr2]
    · cases hfind : (list_available_dates run p r b sd ed).find?
        (fun d => (strptimeYmd d).isNone) with
      | some d =>
        exact absurd herr (by simp [processTiles, hemp, hfind])
      | none =>
        cases hbuild : buildTileTasks p r b o (list_available_dates run p r b sd ed) with
        | error d =>
          exact absurd herr (by simp [processTiles, hemp, hfind, hbuild])
        | ok ts =>
          have herr2 : (processTiles run sd ed b o rest).2.2 = none := by
            simpa [processTiles, hemp, hfind, hbuild] using herr
          simp [processTiles, hemp, hfind, hbuild, ih l2 herr2]

theorem length_tiles (paths rows : List Str) :
    (paths.flatMap (fun p => rows.map (fun r => (p, r)))).length
      = paths.length * rows.length := by
  induction paths with
  | nil => simp
  | cons p ps ih => simp [List.flatMap_cons, ih, Nat.succ_mul, Nat.add_comm]

theorem isSome_of_not_isNone {o : Option (Nat × Nat × Nat)}
    (h : ¬ o.isNone = true) : o.isSome = true := by
  cases o with
  | none => exact absurd rfl h
  | some v => rfl

theorem processTiles_err_iff (run : Str → S3Result) (sd ed b o : Str) :
    ∀ tiles : List (Str × Str),
      (processTiles run sd ed b o tiles).2.2 = none ↔
        ∀ pr ∈ tiles, ∀ d ∈ list_available_dates run pr.1 pr.2 b sd ed,
          (strptimeYmd d).isSome = true := by
  intro tiles
  induction tiles with
  | nil => simp [processTiles]
  | cons pr rest ih =>
    obtain ⟨p, r⟩ := pr
    by_cases hemp : (list_available_dates run p r b sd ed).isEmpty
    · have hnil : list_available_dates run p r b sd ed = [] := by
        rwa [List.isEmpty_iff] at hemp
      simp [processTiles, hemp, List.forall_mem_cons, hnil, ih]
    · cases hfind : (list_available_dates run p r b sd ed).find?
        (fun d => (strptimeYmd d).isNone) with
      | some d =>
        have hd1 := List.find?_some hfind
        have hd2 : d ∈ list_available_dates run p r b sd ed :=
          List.mem_of_find?_eq_some hfind
        constructor
        · intro hcon
          exact absurd hcon (by simp [processTiles, hemp, hfind])
        · intro hall
          have := hall (p, r) (List.mem_cons_self _ _) d hd2
          rw [Option.isNone_iff_eq_none.1 hd1] at this
          cases this
      | none =>
        have hall1 : ∀ d ∈ list_available_dates run p r b sd ed,
            (strptimeYmd d).isSome = true := by
          intro d hd
          exact isSome_of_not_isNone (List.find?_eq_none.1 hfind d hd)
        obtain ⟨ts, hbuild⟩ :=
          buildTileTasks_ok p r b o (list_available_dates run p r b sd ed) hall1
        have hred : (processTiles run sd ed b o ((p, r) :: rest)).2.2
            = (processTiles run sd ed b o rest).2.2 := by
          simp [processTiles, hemp, hfind, hbuild]
        rw [hred, ih]
        simp only [List.forall_mem_cons]
        constructor
        · intro hrest
          exact ⟨hall1, hrest⟩
        · intro hboth
          exact hboth.2

theorem processTiles_err_strptime (run : Str → S3Result) (sd ed b o : Str) :
    ∀ (tiles : List (Str × Str)) (er : PyErr),
      (processTiles run sd ed b o tiles).2.2 = some er →
        ∃ d, er = PyErr.strptimeErr d ∧ strptimeYmd d = none := by
  intro tiles
  induction tiles with
  | nil =>
    intro er h
    simp [processTiles] at h
  | cons pr rest ih =>
    obtain ⟨p, r⟩ := pr
    intro er herr
    by_cases hemp : (list_available_dates run p r b sd ed).isEmpty
    · have herr2 : (processTiles run sd ed b o rest).2.2 = some er := by
        simpa [processTiles, hemp] using herr
      exact ih er herr2
    · cases hfind : (list_available_dates run p r b sd ed).find?
        (fun d => (strptimeYmd d).isNone) with
      | some d =>
        have hd1 := List.find?_some hfind
        have her2 : er = PyErr.strptimeErr d := by
          have := herr
          simp [processTiles, hemp, hfind] at this
          exact this.symm
        exact ⟨d, her2, Option.isNone_iff_eq_none.1 hd1⟩
      | none =>
        have hall1 : ∀ d ∈ list_available_dates run p r b sd ed,
            (strptimeYmd d).isSome = true := by
          intro d hd
          exact isSome_of_not_isNone (List.find?_eq_none.1 hfind d hd)
        obtain ⟨ts, hbuild⟩ :=
          buildTileTasks_ok p r b o (list_available_dates run p r b sd ed) hall1
        have herr2 : (processTiles run sd ed b o rest).2.2 = some er := by
          simpa [processTiles, hemp, hfind, hbuild] using herr
        exact ih er herr2

theorem executeTasks_count_downloading (copy : List Str → Int) (multithread : Bool)
    (sched : List S3Task → List S3Task) (tasks : List S3Task)
    (hs : multithread = true → (sched tasks).Perm tasks) (s : Str) :
    (executeTasks copy multithread sched tasks).count (Event.downloading s)
      = (tasks.map Prod.snd).count s := by
  rw [List.count_eq_countP,
    countP_executeTasks copy multithread sched tasks hs _ (fun i total => by simp),
    List.map_congr_left (fun t _ => run_download_countP_downloading copy t.1 t.2 s),
    List.count_eq_countP, List.countP_map,
    ← sum_map_ite tasks ((fun x => x == s) ∘ Prod.snd)]
  refine congrArg List.sum (List.map_congr_left ?_)
  intro t _
  by_cases h : t.2 = s <;> simp [Function.comp, h]

theorem build_not_action {e : Event} (h : isBuildEvent e = true) :
    isDownloadActionEvent e = false := by
  cases e <;> simp_all [isBuildEvent, isDownloadActionEvent]

theorem action_not_build {e : Event} (h : isDownloadActionEvent e = true) :
    isBuildEvent e = false := by
  cases e <;> simp_all [isBuildEvent, isDownloadActionEvent]

theorem action_not_scan {e : Event} (h : isDownloadActionEvent e = true) :
    isScanEvent e = false := by
  cases e <;> simp_all [isScanEvent, isDownloadActionEvent]

theorem run_download_events_action (copy : List Str → Int) (cmd : List Str) (sp : Str) :
    ∀ e ∈ run_download copy cmd sp, isDownloadActionEvent e = true := by
  intro e he
  by_cases hc : copy cmd = 0 <;> simp [run_download, hc] at he <;>
    rcases he with rfl | rfl <;> rfl

theorem executeTasks_events_action (copy : List Str → Int) (multithread : Bool)
    (sched : List S3Task → List S3Task) (tasks : List S3Task) :
    ∀ e ∈ executeTasks copy multithread sched tasks, isDownloadActionEvent e = true := by
  intro e he
  unfold executeTasks at he
  by_cases hm : multithread = true
  · rw [if_pos hm] at he
    obtain ⟨t, _, he2⟩ := List.mem_flatMap.1 he
    exact run_download_events_action copy t.1 t.2 e he2
  · rw [if_neg hm] at he
    obtain ⟨it, _, he2⟩ := List.mem_flatMap.1 he
    rcases List.mem_cons.1 he2 with rfl | he3
    · rfl
    · exact run_download_events_action copy it.2.1 it.2.2 e he3

/-- Claim C6: in either mode, no download action (progress notice, copy
start, or copy outcome) ever precedes a discovery/construction notice in
the run's trace — the whole task list is built, one sequential scan per
(path, row) occurrence of the `paths × rows` product, before the first
copy starts. -/
theorem spec_c6_theorem (run : Str → S3Result) (copy : List Str → Int)
    (paths rows : List Str) (sd ed b o : Str) (multithread : Bool)
    (sched : List S3Task → List S3Task)
    (her : (download_dea_data run copy paths rows sd ed b o multithread sched).err = none) :
    (download_dea_data run copy paths rows sd ed b o multithread sched).events.countP
        isScanEvent = paths.length * rows.length
    ∧ (download_dea_data run copy paths rows sd ed b o multithread sched).events.Pairwise
        (fun a b2 => isDownloadActionEvent a = true → isBuildEvent b2 = false) := by
  rcases hP : processTiles run sd ed b o
    (paths.flatMap (fun p => rows.map (fun r => (p, r)))) with ⟨ev, ts, er⟩
  have hD : download_dea_data run copy paths rows sd ed b o multithread sched
      = (match (ev, ts, er) with
         | (ev, _, some er) => RunResult.mk ev (some er)
         | (ev, ts, none) =>
             RunResult.mk (ev ++ Event.startingDownloads ts.length ::
               executeTasks copy multithread sched ts) none) := by
    simp only [download_dea_data]
    rw [hP]
  cases er with
  | some e =>
    rw [hD] at her
    simp at her
  | none =>
    have hev_build : ∀ e ∈ ev, isBuildEvent e = true := by
      intro e he
      exact processTiles_events_build run sd ed b o _ e (by rw [hP]; exact he)
    have hscan : ev.countP isScanEvent
        = (paths.flatMap (fun p => rows.map (fun r => (p, r)))).length := by
      have h1 := processTiles_scan_count run sd ed b o
        (paths.flatMap (fun p => rows.map (fun r => (p, r)))) (by rw [hP])
      rw [hP] at h1
      exact h1
    rw [hD]
    constructor
    · simp only [List.countP_append, List.countP_cons]
      have hexec : (executeTasks copy multithread sched ts).countP isScanEvent = 0 := by
        rw [List.countP_eq_zero]
        intro e he
        rw [action_not_scan (executeTasks_events_action copy multithread sched ts e he)]
        simp
      rw [hexec, hscan, length_tiles]
      simp [isScanEvent]
    · refine List.pairwise_append.2 ⟨?_, ?_, ?_⟩
      · refine List.pairwise_of_forall_mem_list ?_
        intro a ha b2 _ hact
        rw [build_not_action (hev_build a ha)] at hact
        cases hact
      · refine List.pairwise_of_forall_mem_list ?_
        intro a _ b2 hb2 _
        rcases List.mem_cons.1 hb2 with rfl | hb3
        · rfl
        · exact action_not_build (executeTasks_events_action copy multithread sched ts b2 hb3)
      · intro a _ b2 hb2 _
        rcases List.mem_cons.1 hb2 with rfl | hb3
        · rfl
        · exact action_not_build (executeTasks_events_action copy multithread sched ts b2 hb3)

/-- Claim C10: task construction iterates the full `paths × rows` cross
product, once per list occurrence: with `paths = [p, p]` and `rows = [r]`
the repeated tile is discovered and expanded twice, the task list is the
tile's task list concatenated with itself (duplicate tasks with identical
destinations), and sequential execution starts each duplicated task —
the copy-start count per remote prefix is doubled. -/
theorem spec_c10_theorem (run : Str → S3Result) (copy : List Str → Int)
    (p r sd ed b o : Str) (sched : List S3Task → List S3Task)
    (hone : (processTiles run sd ed b o [(p, r)]).2.2 = none) :
    processTiles run sd ed b o [(p, r), (p, r)]
      = ((processTiles run sd ed b o [(p, r)]).1 ++ (processTiles run sd ed b o [(p, r)]).1,
         (processTiles run sd ed b o [(p, r)]).2.1 ++ (processTiles run sd ed b o [(p, r)]).2.1,
         none)
    ∧ (∀ s : Str,
      (download_dea_data run copy [p, p] [r] sd ed b o false sched).events.count
          (Event.downloading s)
        = 2 * (((processTiles run sd ed b o [(p, r)]).2.1.map Prod.snd).count s)) := by
  have happ := processTiles_append run sd ed b o [(p, r)] [(p, r)] hone
  have hsplit : ([(p, r), (p, r)] : List (Str × Str)) = [(p, r)] ++ [(p, r)] := rfl
  have hps : processTiles run sd ed b o [(p, r), (p, r)]
      = ((processTiles run sd ed b o [(p, r)]).1 ++ (processTiles run sd ed b o [(p, r)]).1,
         (processTiles run sd ed b o [(p, r)]).2.1 ++ (processTiles run sd ed b o [(p, r)]).2.1,
         none) := by
    rw [hsplit, happ, hone]
  refine ⟨hps, ?_⟩
  intro s
  have htiles : ([p, p] : List Str).flatMap (fun pp => ([r] : List Str).map (fun rr => (pp, rr)))
      = [(p, r), (p, r)] := by simp
  have hD : download_dea_data run copy [p, p] [r] sd ed b o false sched
      = RunResult.mk
          (((processTiles run sd ed b o [(p, r)]).1 ++ (processTiles run sd ed b o [(p, r)]).1)
            ++ Event.startingDownloads
                ((processTiles run sd ed b o [(p, r)]).2.1 ++
                  (processTiles run sd ed b o [(p, r)]).2.1).length ::
              executeTasks copy false sched
                ((processTiles run sd ed b o [(p, r)]).2.1 ++
                  (processTiles run sd ed b o [(p, r)]).2.1)) none := by
    simp only [download_dea_data]
    rw [htiles, hps]
  rw [hD]
  have hE0 : (processTiles run sd ed b o [(p, r)]).1.count (Event.downloading s) = 0 := by
    rw [List.count_eq_zero]
    intro hmem
    have := processTiles_events_build run sd ed b o [(p, r)] _ hmem
    simp [isBuildEvent] at this
  have hexec := executeTasks_count_downloading copy false sched
    ((processTiles run sd ed b o [(p, r)]).2.1 ++ (processTiles run sd ed b o [(p, r)]).2.1)
    (fun h => absurd h Bool.false_ne_true) s
  simp only [List.count_append, List.count_cons, hexec, hE0, List.map_append]
  simp
  omega

/-- Claim C9 (amended): `download_dea_data` escapes with the uncaught
`ValueError` of `datetime.strptime` exactly when some tile's discovered
date list contains a string that fails strptime's lenient `%Y-%m-%d`
parsing (4-digit year, 1–2 digit month in 1..12, 1–2 digit day, valid
calendar day — e.g. month "13", or day "30" in February); the error is
always the strptime one (never the tuple-unpacking error), and it
terminates the run during task construction with no download started.
A merely non-zero-padded month or day is accepted and does not raise. -/
theorem spec_c9_theorem (run : Str → S3Result) (copy : List Str → Int)
    (paths rows : List Str) (sd ed b o : Str) (multithread : Bool)
    (sched : List S3Task → List S3Task) :
    ((download_dea_data run copy paths rows sd ed b o multithread sched).err = none ↔
      ∀ pr ∈ paths.flatMap (fun p => rows.map (fun r => (p, r))),
        ∀ d ∈ list_available_dates run pr.1 pr.2 b sd ed,
          (strptimeYmd d).isSome = true)
    ∧ (∀ er, (download_dea_data run copy paths rows sd ed b o multithread sched).err
          = some er →
        (∃ d, er = PyErr.strptimeErr d ∧ strptimeYmd d = none)
        ∧ ∀ x : Str, Event.downloading x ∉
            (download_dea_data run copy paths rows sd ed b o multithread sched).events) := by
  rcases hP : processTiles run sd ed b o
    (paths.flatMap (fun p => rows.map (fun r => (p, r)))) with ⟨ev, ts, er⟩
  have hDerr : (download_dea_data run copy paths rows sd ed b o multithread sched).err
      = er := by
    simp only [download_dea_data]
    rw [hP]
    cases er <;> rfl
  constructor
  · rw [hDerr]
    have hiff := processTiles_err_iff run sd ed b o
      (paths.flatMap (fun p => rows.map (fun r => (p, r))))
    rw [hP] at hiff
    exact hiff
  · intro er0 herr0
    rw [hDerr] at herr0
    subst herr0
    constructor
    · exact processTiles_err_strptime run sd ed b o _ er0 (by rw [hP])
    · intro x hx
      have hDev : (download_dea_data run copy paths rows sd ed b o multithread sched).events
          = ev := by
        simp only [download_dea_data]
        rw [hP]
      rw [hDev] at hx
      have := processTiles_events_build run sd ed b o _ _ (by rw [hP]; exact hx)
      simp [isBuildEvent] at this

/-- A copy oracle on which every copy succeeds. -/
def zeroCopy : List Str → Int := fun _ => 0

/-- A tree whose single day key `5` is not zero-padded. -/
def c9Tree : Str → S3Result := fun p =>
  if p = chars "b/007/080/" then ⟨0, chars "   PRE 2025/"⟩
  else if p = chars "b/007/080/2025/" then ⟨0, chars "   PRE 01/"⟩
  else if p = chars "b/007/080/2025/01/" then ⟨0, chars "   PRE 5/"⟩
  else ⟨1, []⟩

/-- Claim C9, counterexample: a discovered date whose day is not
zero-padded (`2025-01-5`) does NOT raise — `strptime`'s `%d` accepts one
or two digits — so the run completes and the download for that day-level
prefix is executed, contradicting the claim's "a day not zero-padded in
the listing raises ValueError … with no downloads executed". -/
theorem spec_c9_counterexample :
    list_available_dates c9Tree (chars "7") (chars "80") (chars "b")
        (chars "2025-01-01") (chars "2025-02-01")
      = [chars "2025-01-5"]
    ∧ (download_dea_data c9Tree zeroCopy [chars "7"] [chars "80"] (chars "2025-01-01")
        (chars "2025-02-01") (chars "b") (chars "out") false id).err = none
    ∧ Event.downloading (chars "b/007/080/2025/01/5/")
        ∈ (download_dea_data c9Tree zeroCopy [chars "7"] [chars "80"] (chars "2025-01-01")
            (chars "2025-02-01") (chars "b") (chars "out") false id).events := by
  refine ⟨by decide, by decide, by decide⟩

/-- A tree advertising the invalid calendar date February 30. -/
def c9wTree : Str → S3Result := fun p =>
  if p = chars "b/007/080/" then ⟨0, chars "   PRE 2025/"⟩
  else if p = chars "b/007/080/2025/" then ⟨0, chars "   PRE 02/"⟩
  else if p = chars "b/007/080/2025/02/" then ⟨0, chars "   PRE 30/"⟩
  else ⟨1, []⟩

/-- Witness for the amended Claim C9 on a tree whose discovered date
`2025-02-30` fails calendar validation. -/
theorem spec_c9_witness :
    ((download_dea_data c9wTree zeroCopy [chars "7"] [chars "80"] (chars "2025-02-01")
        (chars "2025-03-01") (chars "b") (chars "out") false id).err = none ↔
      ∀ pr ∈ ([chars "7"] : List Str).flatMap
          (fun p => ([chars "80"] : List Str).map (fun r => (p, r))),
        ∀ d ∈ list_available_dates c9wTree pr.1 pr.2 (chars "b") (chars "2025-02-01")
            (chars "2025-03-01"),
          (strptimeYmd d).isSome = true)
    ∧ (∀ er, (download_dea_data c9wTree zeroCopy [chars "7"] [chars "80"]
          (chars "2025-02-01") (chars "2025-03-01") (chars "b") (chars "out")
          false id).err = some er →
        (∃ d, er = PyErr.strptimeErr d ∧ strptimeYmd d = none)
        ∧ ∀ x : Str, Event.downloading x ∉
            (download_dea_data c9wTree zeroCopy [chars "7"] [chars "80"]
              (chars "2025-02-01") (chars "2025-03-01") (chars "b") (chars "out")
              false id).events) :=
  spec_c9_theorem c9wTree zeroCopy [chars "7"] [chars "80"] (chars "2025-02-01")
    (chars "2025-03-01") (chars "b") (chars "out") false id

/-- A healthy one-tile, one-date tree for the phase-ordering witness. -/
def c6Tree : Str → S3Result := fun p =>
  if p = chars "b/007/080/" then ⟨0, chars "   PRE 2025/"⟩
  else if p = chars "b/007/080/2025/" then ⟨0, chars "   PRE 01/"⟩
  else if p = chars "b/007/080/2025/01/" then ⟨0, chars "   PRE 03/"⟩
  else ⟨1, []⟩

/-- Witness for Claim C6 on a concrete error-free run. -/
theorem spec_c6_witness :
    (download_dea_data c6Tree zeroCopy [chars "7"] [chars "80"] (chars "2025-01-01")
        (chars "2025-12-31") (chars "b") (chars "out") false id).events.countP
        isScanEvent = [chars "7"].length * [chars "80"].length
    ∧ (download_dea_data c6Tree zeroCopy [chars "7"] [chars "80"] (chars "2025-01-01")
        (chars "2025-12-31") (chars "b") (chars "out") false id).events.Pairwise
        (fun a b2 => isDownloadActionEvent a = true → isBuildEvent b2 = false) :=
  spec_c6_theorem c6Tree zeroCopy [chars "7"] [chars "80"] (chars "2025-01-01")
    (chars "2025-12-31") (chars "b") (chars "out") false id (by decide)

/-- A one-tile, two-date tree for the duplicate-tile witness. -/
def c10Tree : Str → S3Result := fun p =>
  if p = chars "b/007/080/" then ⟨0, chars "   PRE 2025/"⟩
  else if p = chars "b/007/080/2025/" then ⟨0, chars "   PRE 01/"⟩
  else if p = chars "b/007/080/2025/01/" then ⟨0, chars "   PRE 01/\n   PRE 03/"⟩
  else ⟨1, []⟩

/-- Witness for Claim C10: the duplicated tile `(7, 80)` contributes its
two tasks twice, and each duplicated task is started. -/
theorem spec_c10_witness :
    processTiles c10Tree (chars "2025-01-01") (chars "2025-12-31") (chars "b") (chars "out")
        [(chars "7", chars "80"), (chars "7", chars "80")]
      = ((processTiles c10Tree (chars "2025-01-01") (chars "2025-12-31") (chars "b")
            (chars "out") [(chars "7", chars "80")]).1 ++
         (processTiles c10Tree (chars "2025-01-01") (chars "2025-12-31") (chars "b")
            (chars "out") [(chars "7", chars "80")]).1,
         (processTiles c10Tree (chars "2025-01-01") (chars "2025-12-31") (chars "b")
            (chars "out") [(chars "7", chars "80")]).2.1 ++
         (processTiles c10Tree (chars "2025-01-01") (chars "2025-12-31") (chars "b")
            (chars "out") [(chars "7", chars "80")]).2.1,
         none)
    ∧ (∀ s : Str,
      (download_dea_data c10Tree zeroCopy [chars "7", chars "7"] [chars "80"]
          (chars "2025-01-01") (chars "2025-12-31") (chars "b") (chars "out")
          false id).events.count (Event.downloading s)
        = 2 * (((processTiles c10Tree (chars "2025-01-01") (chars "2025-12-31") (chars "b")
            (chars "out") [(chars "7", chars "80")]).2.1.map Prod.snd).count s)) :=
  spec_c10_theorem c10Tree zeroCopy (chars "7") (chars "80") (chars "2025-01-01")
    (chars "2025-12-31") (chars "b") (chars "out") id (by decide)
